import Mathlib

/-!
Verification of the chathibri text-chunking and table-extraction pipeline.

Text is modelled as `List Char`.  Python functions from
`backend/services/pdf_processing_service.py` and
`backend/services/s3_pdf_processor.py` are embedded as executable Lean
definitions; machine behaviour (regex substitution, str.strip, str.find,
json.loads, pandas frames, the S3 blob store) is modelled explicitly.
-/

namespace ChatHibri

/-- Python whitespace class: the characters matched by the regex class
for whitespace and trimmed by str.strip. -/
def isPySpace (c : Char) : Bool :=
  c == ' ' || c == '\t' || c == '\n' || c == '\r' || c == '\x0b' || c == '\x0c'

/-- Model of Python str.lstrip with no argument (drop leading whitespace). -/
def stripLeft (l : List Char) : List Char := l.dropWhile isPySpace

/-- Model of Python str.rstrip with no argument (drop trailing whitespace). -/
def stripRight (l : List Char) : List Char := (l.reverse.dropWhile isPySpace).reverse

/-- Model of Python str.strip with no argument. -/
def pyStrip (l : List Char) : List Char := stripRight (stripLeft l)

/-- State-machine transcription of the first substitution in
PDFProcessingService._clean_text: the regex substitution rewriting every
maximal run of whitespace to a single space.  The flag records whether the
previous character was whitespace (so a run emits one space). -/
def collapseWSAux : Bool → List Char → List Char
  | _, [] => []
  | prevWS, c :: cs =>
    if isPySpace c then
      if prevWS then collapseWSAux true cs
      else ' ' :: collapseWSAux true cs
    else c :: collapseWSAux false cs

/-- Model of the first substitution in _clean_text (collapse whitespace
runs to single spaces). -/
def collapseWS (l : List Char) : List Char := collapseWSAux false l

/-- Suffix of a character list after its last newline, or none when the list
has no newline.  Used to model the greedy match of the second substitution in
_clean_text. -/
def afterLastNl : List Char → Option (List Char)
  | [] => none
  | c :: cs =>
    match afterLastNl cs with
    | some s => some s
    | none => if c == '\n' then some cs else none

/-- Fuelled scanner for the second substitution in _clean_text: a newline, a
greedy whitespace run and a closing newline are rewritten to exactly two
newlines, scanning left to right and resuming after each replacement.  Fuel
at least the list length makes the scan complete. -/
def nlSquashF : Nat → List Char → List Char
  | 0, l => l
  | fuel + 1, l =>
    match l with
    | [] => []
    | c :: cs =>
      if c == '\n' then
        match afterLastNl (cs.takeWhile isPySpace) with
        | some suf => '\n' :: '\n' :: nlSquashF fuel (suf ++ cs.dropWhile isPySpace)
        | none => c :: nlSquashF fuel cs
      else c :: nlSquashF fuel cs

/-- Model of the second substitution in _clean_text. -/
def nlSquash (l : List Char) : List Char := nlSquashF l.length l

/-- Model of PDFProcessingService._clean_text: collapse whitespace runs,
squash blank-line runs, then strip. -/
def cleanText (l : List Char) : List Char := pyStrip (nlSquash (collapseWS l))

/-! Structural facts about the normalisation pipeline, leading to the
idempotence claim. -/

/-- Whitespace characters output by the collapse scan are all plain
spaces. -/
theorem collapseWSAux_space {l : List Char} {c : Char} :
    ∀ {b : Bool}, c ∈ collapseWSAux b l → isPySpace c → c = ' ' := by
  induction l with
  | nil => intro b hc _; simp [collapseWSAux] at hc
  | cons d cs ih =>
    intro b hc hw
    by_cases hd : isPySpace d
    · cases b with
      | true =>
        rw [collapseWSAux, if_pos hd] at hc
        exact ih hc hw
      | false =>
        rw [collapseWSAux, if_pos hd] at hc
        simp only [Bool.false_eq_true, if_false] at hc
        rcases List.mem_cons.mp hc with h | h
        · exact h
        · exact ih h hw
    · rw [collapseWSAux, if_neg hd] at hc
      rcases List.mem_cons.mp hc with h | h
      · subst h; simp [hd] at hw
      · exact ih h hw

theorem collapseWS_space {l : List Char} {c : Char}
    (hc : c ∈ collapseWS l) (hw : isPySpace c) : c = ' ' :=
  collapseWSAux_space hc hw

/-- Adjacent-whitespace-freedom: no two consecutive characters are both
whitespace. -/
def SepWS (l : List Char) : Prop :=
  l.Chain' (fun a b => ¬(isPySpace a = true ∧ isPySpace b = true))

theorem sepWS_nil : SepWS [] := List.chain'_nil

/-- In the whitespace state, the collapse scan starts with a non-whitespace
character (if it produces anything at all). -/
theorem collapseWSAux_true_head {l : List Char} {c : Char}
    (h : (collapseWSAux true l).head? = some c) : isPySpace c = false := by
  induction l with
  | nil => simp [collapseWSAux] at h
  | cons d cs ih =>
    by_cases hd : isPySpace d
    · rw [collapseWSAux, if_pos hd] at h
      exact ih h
    · rw [collapseWSAux, if_neg hd] at h
      simp at h
      subst h
      simpa using hd

theorem collapseWSAux_sepWS (l : List Char) : ∀ b, SepWS (collapseWSAux b l) := by
  induction l with
  | nil => intro b; simp [collapseWSAux]; exact sepWS_nil
  | cons d cs ih =>
    intro b
    by_cases hd : isPySpace d
    · cases b with
      | true => rw [collapseWSAux, if_pos hd]; exact ih true
      | false =>
        rw [collapseWSAux, if_pos hd]
        simp only [Bool.false_eq_true, if_false]
        rw [SepWS, List.chain'_cons']
        refine ⟨?_, ih true⟩
        intro y hy hcon
        rw [collapseWSAux_true_head hy] at hcon
        simp at hcon
    · rw [collapseWSAux, if_neg hd]
      rw [SepWS, List.chain'_cons']
      refine ⟨?_, ih false⟩
      intro y hy hcon
      exact hd hcon.1

theorem collapseWS_sepWS (l : List Char) : SepWS (collapseWS l) :=
  collapseWSAux_sepWS l false

/-- On already-normalised text (isolated spaces only, non-whitespace head
requirement when in the whitespace state), the collapse scan is the
identity. -/
theorem collapseWSAux_id {l : List Char}
    (hsp : ∀ c ∈ l, isPySpace c = true → c = ' ')
    (hsep : SepWS l) : collapseWSAux false l = l := by
  induction l with
  | nil => rfl
  | cons d cs ih =>
    by_cases hd : isPySpace d
    · have hdsp : d = ' ' := hsp d (by simp) hd
      rw [collapseWSAux, if_pos hd]
      simp only [Bool.false_eq_true, if_false]
      have htail : collapseWSAux true cs = cs := by
        cases cs with
        | nil => rfl
        | cons e es =>
          have hne : ¬ isPySpace e = true := by
            intro he
            exact (List.chain'_cons.mp hsep).1 ⟨hd, he⟩
          rw [collapseWSAux, if_neg hne]
          have := ih (fun c hc hw => hsp c (List.mem_cons_of_mem _ hc) hw)
            (List.chain'_cons'.mp hsep).2
          rw [collapseWSAux, if_neg hne] at this
          exact this
      rw [htail, hdsp]
    · rw [collapseWSAux, if_neg hd]
      rw [ih (fun c hc hw => hsp c (List.mem_cons_of_mem _ hc) hw)
        (List.chain'_cons'.mp hsep).2]

theorem collapseWS_id {l : List Char}
    (hsp : ∀ c ∈ l, isPySpace c = true → c = ' ')
    (hsep : SepWS l) : collapseWS l = l :=
  collapseWSAux_id hsp hsep

/-- On newline-free text the blank-line scanner is the identity. -/
theorem nlSquashF_id {l : List Char} {fuel : Nat} (hf : l.length ≤ fuel)
    (h : ∀ c ∈ l, c ≠ '\n') : nlSquashF fuel l = l := by
  induction fuel generalizing l with
  | zero =>
    cases l with
    | nil => rfl
    | cons c cs => simp at hf
  | succ fuel ih =>
    cases l with
    | nil => rfl
    | cons c cs =>
      have hc : ¬(c == '\n') = true := by
        simp only [beq_iff_eq]
        exact h c (by simp)
      rw [nlSquashF]
      simp only [hc]
      rw [if_neg (by simp [hc])]
      rw [ih (by simpa using Nat.le_of_succ_le_succ hf)
        (fun d hd => h d (List.mem_cons_of_mem _ hd))]

theorem nlSquash_id {l : List Char} (h : ∀ c ∈ l, c ≠ '\n') : nlSquash l = l :=
  nlSquashF_id (Nat.le_refl _) h


theorem dropWhile_dropWhile (p : Char → Bool) (l : List Char) :
    (l.dropWhile p).dropWhile p = l.dropWhile p := by
  cases h : l.dropWhile p with
  | nil => rfl
  | cons e es =>
    have hh := List.head?_dropWhile_not p l
    rw [h] at hh
    simp at hh
    rw [List.dropWhile_cons, if_neg (by simp [hh])]

theorem stripLeft_head {l : List Char} {c : Char}
    (h : (stripLeft l).head? = some c) : isPySpace c = false := by
  have hh := List.head?_dropWhile_not isPySpace l
  rw [stripLeft] at h
  rw [h] at hh
  exact hh

/-- stripRight returns a prefix of its argument. -/
theorem stripRight_pre (l : List Char) : stripRight l <+: l := by
  rw [stripRight]
  have : (l.reverse.dropWhile isPySpace) <:+ l.reverse := List.dropWhile_suffix _
  have h2 := List.reverse_prefix.mpr this
  simpa using h2

theorem stripLeft_eq_self {l : List Char}
    (h : ∀ c, l.head? = some c → isPySpace c = false) : stripLeft l = l := by
  cases l with
  | nil => rfl
  | cons c cs =>
    rw [stripLeft, List.dropWhile_cons, if_neg (by simp [h c rfl])]

theorem stripRight_idem (l : List Char) : stripRight (stripRight l) = stripRight l := by
  rw [stripRight, stripRight, List.reverse_reverse, dropWhile_dropWhile]

theorem pyStrip_idem (l : List Char) : pyStrip (pyStrip l) = pyStrip l := by
  rw [pyStrip, pyStrip]
  have hL : stripLeft (stripRight (stripLeft l)) = stripRight (stripLeft l) := by
    apply stripLeft_eq_self
    intro c hc
    obtain ⟨t, ht⟩ := stripRight_pre (stripLeft l)
    have hne : stripRight (stripLeft l) ≠ [] := by
      intro hnil; rw [hnil] at hc; simp at hc
    have hhead : (stripLeft l).head? = some c := by
      rw [← ht, List.head?_append]
      cases hsr : stripRight (stripLeft l) with
      | nil => exact absurd hsr hne
      | cons a as => rw [hsr] at hc; simp at hc ⊢; exact hc
    exact stripLeft_head hhead
  rw [hL, stripRight_idem]

/-- pyStrip returns an infix of its argument. -/
theorem pyStrip_isInfix (l : List Char) : pyStrip l <:+: l := by
  rw [pyStrip]
  have h1 : stripRight (stripLeft l) <+: stripLeft l := stripRight_pre _
  have h2 : stripLeft l <:+ l := List.dropWhile_suffix _
  exact List.IsInfix.trans h1.isInfix h2.isInfix

theorem pyStrip_sublist (l : List Char) : (pyStrip l).Sublist l :=
  (pyStrip_isInfix l).sublist

/-- Text in the image of the cleaner: whitespace only as isolated single
spaces, and no leading or trailing whitespace. -/
theorem cleanText_eq (l : List Char) : cleanText l = pyStrip (collapseWS l) := by
  rw [cleanText]
  have hnl : ∀ c ∈ collapseWS l, c ≠ '\n' := by
    intro c hc hcn
    subst hcn
    have := collapseWS_space hc (by decide)
    simp at this
  rw [nlSquash_id hnl]

theorem cleanText_space {l : List Char} {c : Char}
    (hc : c ∈ cleanText l) (hw : isPySpace c) : c = ' ' := by
  rw [cleanText_eq] at hc
  exact collapseWS_space ((pyStrip_sublist _).mem hc) hw

theorem cleanText_sepWS (l : List Char) : SepWS (cleanText l) := by
  rw [cleanText_eq]
  exact List.Chain'.infix (collapseWS_sepWS l) (pyStrip_isInfix _)

theorem cleanText_stripped (l : List Char) : pyStrip (cleanText l) = cleanText l := by
  rw [cleanText_eq, pyStrip_idem]

/-- C9 core: the cleaner is a fixed point on its own output. -/
theorem cleanText_idem (l : List Char) : cleanText (cleanText l) = cleanText l := by
  have hsp : ∀ c ∈ cleanText l, isPySpace c = true → c = ' ' :=
    fun c hc hw => cleanText_space hc hw
  have hnl : ∀ c ∈ cleanText l, c ≠ '\n' := by
    intro c hc hcn
    subst hcn
    have := hsp _ hc (by decide)
    simp at this
  rw [cleanText, collapseWS_id hsp (cleanText_sepWS l), nlSquash_id hnl,
    cleanText_stripped]

/-! The chunker of PDFProcessingService: configuration constants, the
natural-break search and the chunking loop. -/

/-- Chunking configuration from PDFProcessingService.__init__. -/
def chunkSize : Nat := 1000

/-- Overlap between consecutive chunks, from PDFProcessingService.__init__. -/
def chunkOverlap : Nat := 200

/-- Minimum emitted chunk length, from PDFProcessingService.__init__. -/
def minChunkSize : Nat := 100

/-- Whether pat is a leading segment of l (Python startswith on lists). -/
def leadsWith : List Char → List Char → Bool
  | [], _ => true
  | _ :: _, [] => false
  | p :: ps, c :: cs => p == c && leadsWith ps cs

/-- Model of Python str.find: index of the first occurrence of pat in s,
or none when absent. -/
def findSub (pat : List Char) : List Char → Option Nat
  | [] => if pat.isEmpty then some 0 else none
  | c :: cs =>
    if leadsWith pat (c :: cs) then some 0
    else (findSub pat cs).map (· + 1)

/-- Model of the Python membership test: pat occurs somewhere in s. -/
def containsSub (pat s : List Char) : Bool := (findSub pat s).isSome

/-- The ordered natural-break list from _find_natural_break (each entry is a
two-character pattern; priority order as written in the source). -/
def breakChars : List (List Char) :=
  [['\n', '\n'], ['.', ' '], ['.', '\n'], ['!', ' '], ['!', '\n'],
   ['?', ' '], ['?', '\n'], [';', ' '], [';', '\n'], [':', ' '],
   [':', '\n'], [',', ' '], [',', '\n']]

/-- One step of the best-break fold in _find_natural_break: look up the
first occurrence of one break pattern and keep it when it is strictly
closer to the preferred end than the best so far. -/
def bestStep (searchText : List Char) (searchStart pend : Nat)
    (best : Option Nat) (pat : List Char) : Option Nat :=
  match findSub pat searchText with
  | none => best
  | some pos =>
    match best with
    | none => some (searchStart + pos + pat.length)
    | some b =>
      if Nat.dist (searchStart + pos + pat.length) pend < Nat.dist b pend
      then some (searchStart + pos + pat.length) else best

/-- The fold from _find_natural_break choosing, over the break patterns in
priority order, the end position of the first occurrence in the search text
with strictly smallest distance to the preferred end. -/
def bestBreakEnd (searchText : List Char) (searchStart pend : Nat) : Option Nat :=
  breakChars.foldl (bestStep searchText searchStart pend) none

/-- The descending space scan from _find_natural_break: positions pend,
pend-1, ... are probed (fuel counts the probes) for a space character. -/
def spaceFallback (text : List Char) : Nat → Nat → Option Nat
  | _, 0 => none
  | i, fuel + 1 =>
    if i < text.length && (text.getD i 'A' == ' ') then some (i + 1)
    else spaceFallback text (i - 1) fuel

/-- The bounded search window of _find_natural_break. -/
def searchWindow (start pend : Nat) : Nat := min 50 ((pend - start) / 2)

/-- Left edge of the search window (the local search_start). -/
def searchStartOf (start pend : Nat) : Nat := max (pend - searchWindow start pend) start

/-- Right edge of the search window (the local search_end). -/
def searchEndOf (text : List Char) (start pend : Nat) : Nat :=
  min (pend + searchWindow start pend) text.length

/-- Python slice text[a:b] for 0 <= a <= b. -/
def sliceText (t : List Char) (a b : Nat) : List Char := (t.drop a).take (b - a)

/-- The window slice searched for natural breaks (the local search_text). -/
def searchTextOf (text : List Char) (start pend : Nat) : List Char :=
  sliceText text (searchStartOf start pend) (searchEndOf text start pend)

/-- Model of PDFProcessingService._find_natural_break. -/
def findNaturalBreak (text : List Char) (start pend : Nat) : Nat :=
  if text.length ≤ pend then text.length
  else if pend ≤ start then pend
  else
    match bestBreakEnd (searchTextOf text start pend) (searchStartOf start pend) pend with
    | some b => b
    | none =>
      match spaceFallback text pend (pend - searchStartOf start pend + 1) with
      | some s => s
      | none => pend

/-- Number of maximal non-whitespace runs; models len(s.split()) in Python. -/
def wordCountAux : List Char → Bool → Nat
  | [], _ => 0
  | c :: cs, inWord =>
    if isPySpace c then wordCountAux cs false
    else (if inWord then 0 else 1) + wordCountAux cs true

/-- Model of len(s.split()) for whitespace splitting. -/
def pyWordCount (l : List Char) : Nat := wordCountAux l false

/-- One chunk record as built by create_text_chunks. -/
structure Chunk where
  text : List Char
  chunkIndex : Nat
  startChar : Nat
  endChar : Nat
  charCount : Nat
  wordCount : Nat
  pdfName : String
deriving DecidableEq

/-- The chunk-end computation of one loop iteration of create_text_chunks:
candidate end start+chunk_size, refined by the natural-break search when it
is not past the end of the text. -/
def chunkEndOf (t : List Char) (start : Nat) : Nat :=
  if start + chunkSize < t.length then findNaturalBreak t start (start + chunkSize)
  else t.length

/-- The start-advance computation of one loop iteration of
create_text_chunks: overlap step, forced advance when no progress was made,
and the final start-beyond-end correction.  Natural subtraction models the
clamp of a negative start to zero. -/
def nextStartOf (t : List Char) (start endPos : Nat) : Nat :=
  let s1 := endPos - chunkOverlap
  let s2 := if s1 ≤ start then start + max 1 (chunkSize / 2) else s1
  if endPos ≤ s2 ∧ endPos < t.length then endPos else s2

/-- The chunking loop of create_text_chunks.  The fuel argument models the
iteration cap max_iterations; the returned number counts executed loop
iterations. -/
def chunkLoop (t : List Char) (pdfName : String) :
    Nat → Nat → Nat → List Chunk → List Chunk × Nat
  | 0, _, _, acc => (acc, 0)
  | fuel + 1, start, idx, acc =>
    if t.length ≤ start then (acc, 0)
    else
      let e := chunkEndOf t start
      let ct := pyStrip (sliceText t start e)
      let emit := minChunkSize ≤ ct.length
      let acc2 := if emit then
        acc ++ [⟨ct, idx, start, e, ct.length, pyWordCount ct, pdfName⟩] else acc
      let idx2 := if emit then idx + 1 else idx
      let r := chunkLoop t pdfName fuel (nextStartOf t start e) idx2 acc2
      (r.1, r.2 + 1)

/-- Model of PDFProcessingService.create_text_chunks: clean the text, emit a
single whole-text chunk when it is shorter than the minimum, otherwise run
the capped chunking loop. -/
def createTextChunks (raw : List Char) (pdfName : String) : List Chunk :=
  let t := cleanText raw
  if t.length < minChunkSize then
    [⟨t, 0, 0, t.length, t.length, pyWordCount t, pdfName⟩]
  else (chunkLoop t pdfName (t.length / 100 + 100) 0 0 []).1

/-- Number of loop iterations executed by create_text_chunks. -/
def chunkIterations (raw : List Char) (pdfName : String) : Nat :=
  let t := cleanText raw
  if t.length < minChunkSize then 0
  else (chunkLoop t pdfName (t.length / 100 + 100) 0 0 []).2

/-! Bounds on the natural-break search, supporting the termination and
coverage claims. -/

theorem leadsWith_length {pat l : List Char} (h : leadsWith pat l = true) :
    pat.length ≤ l.length := by
  induction pat generalizing l with
  | nil => simp
  | cons p ps ih =>
    cases l with
    | nil => simp [leadsWith] at h
    | cons c cs =>
      rw [leadsWith] at h
      simp only [Bool.and_eq_true] at h
      simpa using ih h.2

theorem findSub_bound {pat s : List Char} {p : Nat} (h : findSub pat s = some p) :
    p + pat.length ≤ s.length := by
  induction s generalizing p with
  | nil =>
    rw [findSub] at h
    by_cases hp : pat.isEmpty
    · rw [if_pos hp] at h
      cases h
      simpa using List.isEmpty_iff.mp hp
    · rw [if_neg hp] at h
      cases h
  | cons c cs ih =>
    rw [findSub] at h
    by_cases hl : leadsWith pat (c :: cs)
    · rw [if_pos hl] at h
      cases h
      simpa using leadsWith_length hl
    · rw [if_neg hl] at h
      cases hq : findSub pat cs with
      | none => rw [hq] at h; cases h
      | some q =>
        rw [hq] at h
        simp at h
        subst h
        have := ih hq
        simp only [List.length_cons]
        omega

/-- All break patterns have length two. -/
theorem breakChars_len : ∀ pat ∈ breakChars, pat.length = 2 := by decide

theorem bestBreakEnd_bound {st : List Char} {ss pend b : Nat}
    (h : bestBreakEnd st ss pend = some b) :
    ss + 2 ≤ b ∧ b ≤ ss + st.length := by
  rw [bestBreakEnd] at h
  have main : ∀ (pats : List (List Char)), (∀ p ∈ pats, p.length = 2) →
      ∀ acc : Option Nat, (∀ x, acc = some x → ss + 2 ≤ x ∧ x ≤ ss + st.length) →
      ∀ y, pats.foldl (bestStep st ss pend) acc = some y →
        ss + 2 ≤ y ∧ y ≤ ss + st.length := by
    intro pats
    induction pats with
    | nil => intro _ acc hacc y hy; exact hacc y hy
    | cons pat rest ih =>
      intro hlen acc hacc y hy
      rw [List.foldl_cons] at hy
      refine ih (fun p hp => hlen p (List.mem_cons_of_mem _ hp)) _ ?_ y hy
      intro x hx
      cases hfs : findSub pat st with
      | none =>
        simp only [bestStep, hfs] at hx
        exact hacc x hx
      | some pos =>
        have hp2 : pat.length = 2 := hlen pat (by simp)
        have hb := findSub_bound hfs
        cases acc with
        | none =>
          simp only [bestStep, hfs] at hx
          cases hx
          omega
        | some a =>
          have ha := hacc a rfl
          simp only [bestStep, hfs] at hx
          by_cases hlt : Nat.dist (ss + pos + pat.length) pend < Nat.dist a pend
          · rw [if_pos hlt] at hx
            cases hx
            omega
          · rw [if_neg hlt] at hx
            cases hx
            exact ha
  exact main breakChars breakChars_len none (by intro x hx; cases hx) b h

theorem spaceFallback_bound {t : List Char} {i fuel s : Nat}
    (h : spaceFallback t i fuel = some s) :
    s ≤ i + 1 ∧ i + 2 ≤ s + fuel ∧ s ≤ t.length := by
  induction fuel generalizing i with
  | zero => rw [spaceFallback] at h; cases h
  | succ fuel ih =>
    rw [spaceFallback] at h
    by_cases hc : (i < t.length && (t.getD i 'A' == ' ')) = true
    · rw [if_pos hc] at h
      cases h
      simp only [Bool.and_eq_true, decide_eq_true_eq] at hc
      omega
    · rw [if_neg hc] at h
      have := ih h
      omega

/-- Lower and upper bounds on the break position chosen inside one loop
iteration: for a candidate end start+1000 strictly inside the text, the
refined end stays within 49 characters of it on the left and inside the
text on the right. -/
theorem searchStartOf_chunk (start : Nat) :
    searchStartOf start (start + chunkSize) = start + 950 := by
  have hcs : chunkSize = 1000 := rfl
  rw [searchStartOf, searchWindow]
  omega

theorem searchTextOf_length (t : List Char) (start pend : Nat) :
    (searchTextOf t start pend).length ≤ searchEndOf t start pend - searchStartOf start pend := by
  rw [searchTextOf, sliceText]
  simpa using List.length_take_le _ _

theorem findNaturalBreak_bound {t : List Char} {start : Nat}
    (h : start + chunkSize < t.length) :
    start + 951 ≤ findNaturalBreak t start (start + chunkSize) ∧
      findNaturalBreak t start (start + chunkSize) ≤ t.length := by
  have hcs : chunkSize = 1000 := rfl
  have hss := searchStartOf_chunk start
  have hsel : searchEndOf t start (start + chunkSize) ≤ t.length := by
    rw [searchEndOf]; omega
  have hstl := searchTextOf_length t start (start + chunkSize)
  rw [findNaturalBreak, if_neg (by omega), if_neg (by omega)]
  constructor
  · split
    · next b hbb =>
        have := bestBreakEnd_bound hbb
        omega
    · split
      · next s hsf =>
          have := spaceFallback_bound hsf
          omega
      · omega
  · split
    · next b hbb =>
        have := bestBreakEnd_bound hbb
        omega
    · split
      · next s hsf =>
          have := spaceFallback_bound hsf
          omega
      · omega

/-- Bounds for the per-iteration chunk end. -/
theorem chunkEndOf_bound {t : List Char} {start : Nat} (h : start < t.length) :
    chunkEndOf t start ≤ t.length ∧
      (start + chunkSize < t.length → start + 951 ≤ chunkEndOf t start) ∧
      (¬ start + chunkSize < t.length → chunkEndOf t start = t.length) := by
  rw [chunkEndOf]
  by_cases hc : start + chunkSize < t.length
  · rw [if_pos hc]
    have := findNaturalBreak_bound hc
    exact ⟨this.2, fun _ => this.1, fun hn => absurd hc hn⟩
  · rw [if_neg hc]
    exact ⟨Nat.le_refl _, fun hcon => absurd hcon hc, fun _ => rfl⟩

/-! Length of a stripped slice of normalised text. -/

theorem stripLeft_length {l : List Char} (hsep : SepWS l) :
    l.length ≤ (stripLeft l).length + 1 := by
  cases l with
  | nil => simp [stripLeft]
  | cons c cs =>
    by_cases hc : isPySpace c
    · rw [stripLeft, List.dropWhile_cons, if_pos hc]
      cases cs with
      | nil => simp
      | cons d ds =>
        have hd : ¬ isPySpace d = true := by
          intro hd
          exact (List.chain'_cons.mp hsep).1 ⟨hc, hd⟩
        rw [List.dropWhile_cons, if_neg (by simp [hd])]
        simp
    · rw [stripLeft, List.dropWhile_cons, if_neg (by simp [hc])]
      simp

theorem sepWS_reverse {l : List Char} (h : SepWS l) : SepWS l.reverse := by
  rw [SepWS, List.chain'_reverse]
  have : (flip fun a b => ¬(isPySpace a = true ∧ isPySpace b = true)) =
      (fun a b : Char => ¬(isPySpace a = true ∧ isPySpace b = true)) := by
    funext a b
    simp [flip, and_comm]
  rw [this]
  exact h

theorem stripRight_length {l : List Char} (hsep : SepWS l) :
    l.length ≤ (stripRight l).length + 1 := by
  rw [stripRight]
  have := stripLeft_length (sepWS_reverse hsep)
  rw [stripLeft] at this
  simpa using this

theorem sepWS_stripLeft {l : List Char} (h : SepWS l) : SepWS (stripLeft l) :=
  List.Chain'.suffix h (List.dropWhile_suffix _)

theorem pyStrip_length {l : List Char} (hsep : SepWS l) :
    l.length ≤ (pyStrip l).length + 2 := by
  rw [pyStrip]
  have h1 := stripLeft_length hsep
  have h2 := stripRight_length (sepWS_stripLeft hsep)
  omega

/-- A slice of separated text is separated. -/
theorem sepWS_slice {t : List Char} (hsep : SepWS t) (a b : Nat) :
    SepWS (sliceText t a b) := by
  rw [sliceText]
  refine List.Chain'.infix hsep ?_
  have h1 : (t.drop a).take (b - a) <+: t.drop a := List.take_prefix _ _
  have h2 : t.drop a <:+ t := List.drop_suffix _ _
  exact List.IsInfix.trans h1.isInfix h2.isInfix

theorem sliceText_length (t : List Char) (a b : Nat) :
    (sliceText t a b).length = min (b - a) (t.length - a) := by
  rw [sliceText]
  simp

/-! The chunking loop: iteration count, accumulator extension and range
coverage. -/

/-- Unfolding equation for one executed loop iteration. -/
theorem chunkLoop_succ (t : List Char) (n : String) (fuel start idx : Nat)
    (acc : List Chunk) :
    chunkLoop t n (fuel + 1) start idx acc =
      if t.length ≤ start then (acc, 0)
      else
        ((chunkLoop t n fuel (nextStartOf t start (chunkEndOf t start))
          (if minChunkSize ≤ (pyStrip (sliceText t start (chunkEndOf t start))).length
            then idx + 1 else idx)
          (if minChunkSize ≤ (pyStrip (sliceText t start (chunkEndOf t start))).length
            then acc ++ [⟨pyStrip (sliceText t start (chunkEndOf t start)), idx, start,
                chunkEndOf t start,
                (pyStrip (sliceText t start (chunkEndOf t start))).length,
                pyWordCount (pyStrip (sliceText t start (chunkEndOf t start))), n⟩]
            else acc)).1,
         (chunkLoop t n fuel (nextStartOf t start (chunkEndOf t start))
          (if minChunkSize ≤ (pyStrip (sliceText t start (chunkEndOf t start))).length
            then idx + 1 else idx)
          (if minChunkSize ≤ (pyStrip (sliceText t start (chunkEndOf t start))).length
            then acc ++ [⟨pyStrip (sliceText t start (chunkEndOf t start)), idx, start,
                chunkEndOf t start,
                (pyStrip (sliceText t start (chunkEndOf t start))).length,
                pyWordCount (pyStrip (sliceText t start (chunkEndOf t start))), n⟩]
            else acc)).2 + 1) := rfl

/-- The loop executes at most fuel iterations. -/
theorem chunkLoop_count_le (t : List Char) (n : String) :
    ∀ fuel start idx acc, (chunkLoop t n fuel start idx acc).2 ≤ fuel := by
  intro fuel
  induction fuel with
  | zero => intro start idx acc; rfl
  | succ fuel ih =>
    intro start idx acc
    rw [chunkLoop_succ]
    by_cases hs : t.length ≤ start
    · rw [if_pos hs]; exact Nat.zero_le _
    · rw [if_neg hs]
      exact Nat.succ_le_succ (ih _ _ _)

/-- The loop only appends to its accumulator. -/
theorem chunkLoop_extends (t : List Char) (n : String) :
    ∀ fuel start idx acc, ∃ r, (chunkLoop t n fuel start idx acc).1 = acc ++ r := by
  intro fuel
  induction fuel with
  | zero => intro start idx acc; exact ⟨[], by simp [chunkLoop]⟩
  | succ fuel ih =>
    intro start idx acc
    rw [chunkLoop_succ]
    by_cases hs : t.length ≤ start
    · rw [if_pos hs]; exact ⟨[], by simp⟩
    · rw [if_neg hs]
      by_cases hemit : minChunkSize ≤ (pyStrip (sliceText t start (chunkEndOf t start))).length
      · rw [if_pos hemit, if_pos hemit]
        obtain ⟨r, hr⟩ := ih (nextStartOf t start (chunkEndOf t start)) (idx + 1)
          (acc ++ [⟨pyStrip (sliceText t start (chunkEndOf t start)), idx, start,
            chunkEndOf t start,
            (pyStrip (sliceText t start (chunkEndOf t start))).length,
            pyWordCount (pyStrip (sliceText t start (chunkEndOf t start))), n⟩])
        exact ⟨_, by rw [hr, List.append_assoc]⟩
      · rw [if_neg hemit, if_neg hemit]
        exact ih _ _ _

/-- Coverage of an initial interval of character positions by chunk
ranges. -/
def CoversUpTo (L : List Chunk) (m : Nat) : Prop :=
  ∀ i, i < m → ∃ ch ∈ L, ch.startChar ≤ i ∧ i < ch.endChar

theorem coversUpTo_append {L R : List Chunk} {m : Nat} (h : CoversUpTo L m) :
    CoversUpTo (L ++ R) m := by
  intro i hi
  obtain ⟨ch, hch, h1, h2⟩ := h i hi
  exact ⟨ch, List.mem_append_left _ hch, h1, h2⟩

/-- Slicing the whole text is the identity. -/
theorem sliceText_all (t : List Char) : sliceText t 0 t.length = t := by
  rw [sliceText]
  simp

/-- The start-advance of a continuing iteration is the overlap step: when the
chunk end is at least 951 characters past the start and strictly inside the
text, the next start is end - overlap. -/
theorem nextStartOf_normal {t : List Char} {start e : Nat}
    (h1 : start + 951 ≤ e) (h2 : e < t.length) :
    nextStartOf t start e = e - 200 := by
  simp only [nextStartOf, chunkOverlap, chunkSize]
  have hno : ¬ (e - 200 ≤ start) := by omega
  rw [if_neg hno]
  rw [if_neg (by omega)]

/-- Main loop invariant: with enough fuel, starting strictly inside the
text, with everything before start+overlap already covered (or at the very
beginning), the loop covers the whole text. -/
theorem chunkLoop_covers {t : List Char} {n : String}
    (hsep : SepWS t) (hstrip : pyStrip t = t) (hlen : minChunkSize ≤ t.length) :
    ∀ fuel start idx acc, start < t.length →
      (start = 0 ∨ (start + 200 ≤ t.length ∧ CoversUpTo acc (start + 200))) →
      t.length ≤ start + 500 * fuel →
      CoversUpTo (chunkLoop t n fuel start idx acc).1 t.length := by
  have hmc : minChunkSize = 100 := rfl
  have hcs : chunkSize = 1000 := rfl
  intro fuel
  induction fuel with
  | zero =>
    intro start idx acc h1 _ h3
    omega
  | succ fuel ih =>
    intro start idx acc hstart hinv hfuel
    rw [chunkLoop_succ, if_neg (by omega)]
    have heB := chunkEndOf_bound hstart
    set e := chunkEndOf t start with he
    have hslice : (sliceText t start e).length = e - start := by
      rw [sliceText_length]
      omega
    have hstripBound := pyStrip_length (sepWS_slice hsep start e)
    have hstripLe : (pyStrip (sliceText t start e)).length ≤ (sliceText t start e).length :=
      (pyStrip_sublist _).length_le
    by_cases heend : t.length ≤ e
    · -- final iteration: the chunk reaches the end of the text
      have heq : e = t.length := Nat.le_antisymm heB.1 heend
      have hemit : minChunkSize ≤ (pyStrip (sliceText t start e)).length := by
        rcases hinv with h0 | ⟨h200, _⟩
        · subst h0
          rw [heq, sliceText_all, hstrip]
          omega
        · omega
      rw [if_pos hemit, if_pos hemit]
      obtain ⟨r, hr⟩ := chunkLoop_extends t n fuel (nextStartOf t start e) (idx + 1)
        (acc ++ [⟨pyStrip (sliceText t start e), idx, start, e,
          (pyStrip (sliceText t start e)).length,
          pyWordCount (pyStrip (sliceText t start e)), n⟩])
      simp only [hr]
      intro i hi
      by_cases his : start ≤ i
      · refine ⟨⟨pyStrip (sliceText t start e), idx, start, e,
          (pyStrip (sliceText t start e)).length,
          pyWordCount (pyStrip (sliceText t start e)), n⟩, ?_, his, ?_⟩
        · simp
        · show i < e
          omega
      · rcases hinv with h0 | ⟨h200, hcov⟩
        · omega
        · obtain ⟨ch, hch, hc1, hc2⟩ := hcov i (by omega)
          exact ⟨ch, by simp [hch], hc1, hc2⟩
    · -- continuing iteration: the natural-break end is strictly inside
      have hA : start + chunkSize < t.length := by
        by_contra hA
        exact heend (by rw [heB.2.2 hA])
      have he951 := heB.2.1 hA
      have hemit : minChunkSize ≤ (pyStrip (sliceText t start e)).length := by
        omega
      rw [if_pos hemit, if_pos hemit]
      have hnext : nextStartOf t start e = e - 200 :=
        nextStartOf_normal he951 (by omega)
      rw [hnext]
      have hcov2 : CoversUpTo (acc ++ [⟨pyStrip (sliceText t start e), idx, start, e,
          (pyStrip (sliceText t start e)).length,
          pyWordCount (pyStrip (sliceText t start e)), n⟩]) e := by
        intro i hi
        by_cases his : start ≤ i
        · refine ⟨⟨pyStrip (sliceText t start e), idx, start, e,
            (pyStrip (sliceText t start e)).length,
            pyWordCount (pyStrip (sliceText t start e)), n⟩, ?_, his, hi⟩
          simp
        · rcases hinv with h0 | ⟨h200, hcov⟩
          · omega
          · obtain ⟨ch, hch, hc1, hc2⟩ := hcov i (by omega)
            exact ⟨ch, by simp [hch], hc1, hc2⟩
      refine ih (e - 200) _ _ (by omega) (Or.inr ⟨by omega, ?_⟩) (by omega)
      have : e - 200 + 200 = e := by omega
      rw [this]
      exact hcov2

/-! Whitespace-free adversarial input. -/

theorem collapseWSAux_noWS {l : List Char} (h : ∀ c ∈ l, isPySpace c = false) :
    ∀ b, collapseWSAux b l = l := by
  induction l with
  | nil => intro b; rfl
  | cons c cs ih =>
    intro b
    rw [collapseWSAux, if_neg (by simp [h c (by simp)])]
    rw [ih (fun d hd => h d (List.mem_cons_of_mem _ hd)) false]

theorem pyStrip_noWS {l : List Char} (h : ∀ c ∈ l, isPySpace c = false) :
    pyStrip l = l := by
  rw [pyStrip]
  have hsl : stripLeft l = l := by
    apply stripLeft_eq_self
    intro c hc
    exact h c (List.mem_of_mem_head? hc)
  rw [hsl, stripRight]
  have hdrop : l.reverse.dropWhile isPySpace = l.reverse := by
    cases hrev : l.reverse with
    | nil => rfl
    | cons c cs =>
      rw [List.dropWhile_cons]
      rw [if_neg ?_]
      have hcm : c ∈ l := by
        rw [← List.mem_reverse, hrev]
        simp
      simp [h c hcm]
  rw [hdrop, List.reverse_reverse]

theorem cleanText_noWS {l : List Char} (h : ∀ c ∈ l, isPySpace c = false) :
    cleanText l = l := by
  rw [cleanText, collapseWS, collapseWSAux_noWS h false]
  rw [nlSquash_id (fun c hc hcn => by
    subst hcn
    exact absurd (h '\n' hc) (by decide))]
  exact pyStrip_noWS h

/-- On whitespace-free text of at least minimum length, the first iteration
of the loop emits a chunk; together with accumulator extension the result is
nonempty. -/
theorem createTextChunks_noWS_ne {raw : List Char} {name : String}
    (hws : ∀ c ∈ raw, isPySpace c = false) (hlen : minChunkSize ≤ raw.length) :
    1 ≤ (createTextChunks raw name).length := by
  have hmc : minChunkSize = 100 := rfl
  have hclean := cleanText_noWS hws
  simp only [createTextChunks, hclean]
  rw [if_neg (by omega)]
  have hfuel : raw.length / 100 + 100 = (raw.length / 100 + 99) + 1 := by omega
  rw [hfuel, chunkLoop_succ, if_neg (by omega)]
  have hstart : (0 : Nat) < raw.length := by omega
  have heB := chunkEndOf_bound hstart
  set e := chunkEndOf raw 0 with he
  have hsliceNoWS : ∀ c ∈ sliceText raw 0 e, isPySpace c = false := by
    intro c hc
    refine hws c ?_
    rw [sliceText] at hc
    exact List.mem_of_mem_drop (List.mem_of_mem_take hc)
  have hstripped : pyStrip (sliceText raw 0 e) = sliceText raw 0 e :=
    pyStrip_noWS hsliceNoWS
  have hslicelen : (sliceText raw 0 e).length = e := by
    rw [sliceText_length]
    omega
  have hemit : minChunkSize ≤ (pyStrip (sliceText raw 0 e)).length := by
    rw [hstripped, hslicelen]
    by_cases hA : 0 + chunkSize < raw.length
    · have := heB.2.1 hA
      omega
    · have := heB.2.2 hA
      omega
  rw [if_pos hemit, if_pos hemit]
  obtain ⟨r, hr⟩ := chunkLoop_extends raw name (raw.length / 100 + 99)
    (nextStartOf raw 0 e) 1
    ([] ++ [⟨pyStrip (sliceText raw 0 e), 0, 0, e,
      (pyStrip (sliceText raw 0 e)).length,
      pyWordCount (pyStrip (sliceText raw 0 e)), name⟩])
  rw [hr]
  simp

/-- C1: the chunking loop executes at most text_length/100 + 100 iterations
(the cap); whenever an iteration's overlap advance end - overlap fails to
pass the previous start, the next start is forced to
previous start + max(1, chunk_size/2); and on whitespace-free input of at
least the minimum chunk size, chunking terminates within the cap and
produces at least one chunk. -/
theorem claim1_chunk_termination :
    (∀ raw name, chunkIterations raw name ≤ (cleanText raw).length / 100 + 100) ∧
    (∀ t start, start < t.length →
      chunkEndOf t start - chunkOverlap ≤ start →
      nextStartOf t start (chunkEndOf t start) = start + max 1 (chunkSize / 2)) ∧
    (∀ raw name, (∀ c ∈ raw, isPySpace c = false) → minChunkSize ≤ raw.length →
      1 ≤ (createTextChunks raw name).length) := by
  refine ⟨?_, ?_, ?_⟩
  · intro raw name
    simp only [chunkIterations]
    by_cases hlt : (cleanText raw).length < minChunkSize
    · rw [if_pos hlt]; exact Nat.zero_le _
    · rw [if_neg hlt]; exact chunkLoop_count_le _ _ _ _ _ _
  · intro t start hstart hback
    have hov : chunkOverlap = 200 := rfl
    have hcs : chunkSize = 1000 := rfl
    have heB := chunkEndOf_bound hstart
    set e := chunkEndOf t start with he
    have heqlen : e = t.length := by
      apply heB.2.2
      intro hA
      have := heB.2.1 hA
      omega
    simp only [nextStartOf, chunkOverlap, chunkSize]
    have hfwd : e - 200 ≤ start := by
      rw [hov] at hback
      omega
    rw [if_pos hfwd]
    rw [if_neg (by omega)]
  · intro raw name hws hlen
    exact createTextChunks_noWS_ne hws hlen

set_option maxRecDepth 4000 in
/-- Witness for C1 at concrete inputs: a 150-character whitespace-free text
for the cap and the adversarial-input part, and a short text whose final
iteration triggers the forced advance. -/
theorem claim1_chunk_termination_witness :
    chunkIterations (List.replicate 150 'a') "doc" ≤
      (cleanText (List.replicate 150 'a')).length / 100 + 100 ∧
    (40 < (List.replicate 60 'a' : List Char).length ∧
      chunkEndOf (List.replicate 60 'a') 40 - chunkOverlap ≤ 40 ∧
      nextStartOf (List.replicate 60 'a') 40 (chunkEndOf (List.replicate 60 'a') 40) =
        40 + max 1 (chunkSize / 2)) ∧
    1 ≤ (createTextChunks (List.replicate 150 'a') "doc").length := by
  refine ⟨claim1_chunk_termination.1 _ _, ⟨by decide, by decide, ?_⟩, ?_⟩
  · exact claim1_chunk_termination.2.1 _ 40 (by decide) (by decide)
  · refine claim1_chunk_termination.2.2 _ "doc" ?_ ?_
    · intro c hc
      rw [List.eq_of_mem_replicate hc]
      decide
    · simp [minChunkSize]

/-- C3: for input whose normalised length is at least the minimum chunk
size, the chunk ranges [start_char, end_char) cover every position of the
normalised text with no gaps. -/
theorem claim3_chunk_coverage (raw : List Char) (name : String)
    (hlen : minChunkSize ≤ (cleanText raw).length) :
    ∀ i, i < (cleanText raw).length →
      ∃ ch ∈ createTextChunks raw name, ch.startChar ≤ i ∧ i < ch.endChar := by
  have hmc : minChunkSize = 100 := rfl
  have hsep := cleanText_sepWS raw
  have hstrip := cleanText_stripped raw
  intro i hi
  simp only [createTextChunks]
  rw [if_neg (by omega)]
  refine chunkLoop_covers hsep hstrip hlen _ 0 0 [] (by omega) (Or.inl rfl) ?_ i hi
  have hdm := Nat.div_add_mod (cleanText raw).length 100
  have hmlt : (cleanText raw).length % 100 < 100 := Nat.mod_lt _ (by omega)
  omega

set_option maxRecDepth 4000 in
/-- Witness for C3: coverage of position 0 on a concrete 150-character
whitespace-free input. -/
theorem claim3_chunk_coverage_witness :
    minChunkSize ≤ (cleanText (List.replicate 150 'a')).length ∧
    (0 : Nat) < (cleanText (List.replicate 150 'a')).length ∧
    ∃ ch ∈ createTextChunks (List.replicate 150 'a') "doc",
      ch.startChar ≤ 0 ∧ 0 < ch.endChar := by
  refine ⟨by decide, by decide, ?_⟩
  exact claim3_chunk_coverage (List.replicate 150 'a') "doc" (by decide) 0 (by decide)

/-- C9: whitespace normalisation (_clean_text) is idempotent. -/
theorem claim9_normalization_idempotent (s : List Char) :
    cleanText (cleanText s) = cleanText s :=
  cleanText_idem s

/-! Spec-level reformulation of the natural-break search, for C7. -/

/-- Ends of the first occurrence in the window of each break kind, in
priority order. -/
def firstKindEnds (text : List Char) (start pend : Nat) : List Nat :=
  breakChars.filterMap (fun pat =>
    (findSub pat (searchTextOf text start pend)).map
      (fun pos => searchStartOf start pend + pos + pat.length))

/-- Ends of all occurrences of all break kinds in the window (the original
claim quantifies over these). -/
def allKindEnds (text : List Char) (start pend : Nat) : List Nat :=
  (breakChars.map (fun pat =>
    ((List.range (searchTextOf text start pend).length).filter
      (fun i => leadsWith pat ((searchTextOf text start pend).drop i))).map
      (fun i => searchStartOf start pend + i + pat.length))).flatten

/-- Candidate with smallest distance to pend, earliest on ties (right-fold
formulation, independent of the implementation fold). -/
def pickNearest (pend : Nat) : List Nat → Option Nat
  | [] => none
  | x :: l =>
    match pickNearest pend l with
    | none => some x
    | some y => if Nat.dist y pend < Nat.dist x pend then some y else some x

/-- Latest window position at or before pend holding a space, one past it. -/
def lastSpaceEnd (text : List Char) (start pend : Nat) : Option Nat :=
  (((List.range (pend - searchStartOf start pend + 1)).map (fun j => pend - j)).find?
    (fun k => decide (k < text.length) && (text.getD k 'A' == ' '))).map (· + 1)

/-- Spec-level natural-break function (the amended C7 description): the
nearest first-occurrence-per-kind end, else one past the nearest space at or
before the candidate end inside the window, else the raw candidate end. -/
def specNaturalBreak (text : List Char) (start pend : Nat) : Nat :=
  match pickNearest pend (firstKindEnds text start pend) with
  | some b => b
  | none =>
    match lastSpaceEnd text start pend with
    | some s => s
    | none => pend

/-- Merging one candidate into the running best agrees with consing it onto
the candidate list. -/
theorem pickNearest_merge (pend b a : Nat) (l : List Nat) :
    pickNearest pend ((if Nat.dist a pend < Nat.dist b pend then a else b) :: l) =
      pickNearest pend (b :: a :: l) := by
  by_cases hab : Nat.dist a pend < Nat.dist b pend
  · rw [if_pos hab]
    cases hl : pickNearest pend l with
    | none =>
      simp only [pickNearest, hl]
      rw [if_pos hab]
    | some y =>
      by_cases hya : Nat.dist y pend < Nat.dist a pend
      · simp only [pickNearest, hl, if_pos hya]
        rw [if_pos (by omega)]
      · simp only [pickNearest, hl, if_neg hya]
        rw [if_pos hab]
  · rw [if_neg hab]
    cases hl : pickNearest pend l with
    | none =>
      simp only [pickNearest, hl]
      rw [if_neg hab]
    | some y =>
      by_cases hya : Nat.dist y pend < Nat.dist a pend
      · simp only [pickNearest, hl, if_pos hya]
      · simp only [pickNearest, hl, if_neg hya]
        rw [if_neg hab, if_neg (by omega)]

/-- The implementation fold of _find_natural_break computes the spec-level
nearest candidate. -/
theorem foldBest_eq_pickNearest (st : List Char) (ss pend : Nat) :
    ∀ (pats : List (List Char)) (acc : Option Nat),
      pats.foldl (bestStep st ss pend) acc =
      (match acc with
       | none => pickNearest pend (pats.filterMap (fun pat =>
           (findSub pat st).map (fun pos => ss + pos + pat.length)))
       | some b => pickNearest pend (b :: pats.filterMap (fun pat =>
           (findSub pat st).map (fun pos => ss + pos + pat.length)))) := by
  intro pats
  induction pats with
  | nil =>
    intro acc
    cases acc with
    | none => rfl
    | some b => rfl
  | cons pat rest ih =>
    intro acc
    rw [List.foldl_cons, List.filterMap_cons]
    cases hf : findSub pat st with
    | none =>
      have hstep : bestStep st ss pend acc pat = acc := by
        simp only [bestStep, hf]
      rw [hstep]
      simp only [hf, Option.map]
      exact ih acc
    | some pos =>
      cases acc with
      | none =>
        have hstep : bestStep st ss pend none pat = some (ss + pos + pat.length) := by
          simp only [bestStep, hf]
        rw [hstep]
        simp only [hf, Option.map]
        exact ih (some (ss + pos + pat.length))
      | some b =>
        have hstep : bestStep st ss pend (some b) pat =
            some (if Nat.dist (ss + pos + pat.length) pend < Nat.dist b pend
              then ss + pos + pat.length else b) := by
          by_cases hd : Nat.dist (ss + pos + pat.length) pend < Nat.dist b pend
          · simp only [bestStep, hf, if_pos hd]
          · simp only [bestStep, hf, if_neg hd]
        rw [hstep]
        simp only [hf, Option.map]
        exact Eq.trans (ih (some (if Nat.dist (ss + pos + pat.length) pend < Nat.dist b pend
          then ss + pos + pat.length else b)))
          (pickNearest_merge pend b (ss + pos + pat.length)
            (rest.filterMap (fun pat => (findSub pat st).map (fun pos => ss + pos + pat.length))))

theorem bestBreakEnd_eq_pickNearest (text : List Char) (start pend : Nat) :
    bestBreakEnd (searchTextOf text start pend) (searchStartOf start pend) pend =
      pickNearest pend (firstKindEnds text start pend) := by
  rw [bestBreakEnd, firstKindEnds]
  exact foldBest_eq_pickNearest _ _ _ breakChars none

/-- The descending space scan agrees with the spec-level formulation by
find? over the descending position list. -/
theorem spaceFallback_eq_find (text : List Char) :
    ∀ (fuel i : Nat),
      spaceFallback text i fuel =
        (((List.range fuel).map (fun j => i - j)).find?
          (fun k => decide (k < text.length) && (text.getD k 'A' == ' '))).map (· + 1) := by
  intro fuel
  induction fuel with
  | zero => intro i; rfl
  | succ fuel ih =>
    intro i
    rw [spaceFallback, List.range_succ_eq_map, List.map_cons, List.find?]
    simp only [Nat.sub_zero, List.map_map]
    by_cases hc : (i < text.length && (text.getD i 'A' == ' ')) = true
    · rw [if_pos hc]
      have hc2 : (decide (i < text.length) && (text.getD i 'A' == ' ')) = true := by
        simpa using hc
      rw [hc2]
      rfl
    · rw [if_neg hc]
      have hc2 : (decide (i < text.length) && (text.getD i 'A' == ' ')) = false := by
        simpa using hc
      rw [hc2]
      rw [ih (i - 1)]
      have hfun : ((fun j => i - j) ∘ Nat.succ) = (fun j : Nat => i - 1 - j) := by
        funext j
        simp only [Function.comp]
        omega
      rw [hfun]

/-- Amended C7: with the candidate end strictly between the chunk start and
the end of the text, _find_natural_break returns the nearest
first-occurrence-per-kind break end (ties resolved by break-kind priority
order), else one past the nearest space at or before the candidate end
inside the window, else the raw candidate end. -/
theorem claim7_natural_break_amended (text : List Char) (start pend : Nat)
    (h1 : start < pend) (h2 : pend < text.length) :
    findNaturalBreak text start pend = specNaturalBreak text start pend := by
  rw [findNaturalBreak, if_neg (by omega), if_neg (by omega), specNaturalBreak]
  rw [bestBreakEnd_eq_pickNearest]
  cases hp : pickNearest pend (firstKindEnds text start pend) with
  | some b => rfl
  | none =>
    simp only []
    rw [spaceFallback_eq_find, lastSpaceEnd]

/-- Witness for the amended C7 at a concrete input. -/
theorem claim7_natural_break_amended_witness :
    (0 : Nat) < 20 ∧ 20 < (String.data "aaaaaaaaaa. aaaaaa. aaaaaaaaaa").length ∧
    findNaturalBreak (String.data "aaaaaaaaaa. aaaaaa. aaaaaaaaaa") 0 20 =
      specNaturalBreak (String.data "aaaaaaaaaa. aaaaaa. aaaaaaaaaa") 0 20 :=
  ⟨by decide, by decide,
    claim7_natural_break_amended (String.data "aaaaaaaaaa. aaaaaa. aaaaaaaaaa") 0 20
      (by decide) (by decide)⟩

/-- C7 counterexample: the original claim requires the closest occurrence
among ALL occurrences of all break kinds in the window; on this input the
window holds a sentence break ending at 20 at distance 0, yet the function
returns 12 (the end of the first occurrence of the same kind) at
distance 8. -/
theorem claim7_counterexample :
    findNaturalBreak (String.data "aaaaaaaaaa. aaaaaa. aaaaaaaaaa") 0 20 = 12 ∧
    20 ∈ allKindEnds (String.data "aaaaaaaaaa. aaaaaa. aaaaaaaaaa") 0 20 ∧
    Nat.dist 20 20 < Nat.dist (findNaturalBreak
      (String.data "aaaaaaaaaa. aaaaaa. aaaaaaaaaa") 0 20) 20 := by
  refine ⟨by decide, by decide, by decide⟩

/-! Model of json.loads (strict JSON, the fragment used by
parse_ai_response) and of the response-parsing helpers. -/

/-- JSON values; numbers keep their source token. -/
inductive JVal where
  | jnull
  | jbool (b : Bool)
  | jnum (tok : List Char)
  | jstr (s : List Char)
  | jarr (xs : List JVal)
  | jobj (fields : List (List Char × JVal))

/-- JSON inter-token whitespace (space, tab, newline, carriage return). -/
def isJWS (c : Char) : Bool := c == ' ' || c == '\t' || c == '\n' || c == '\r'

/-- Skip JSON whitespace. -/
def skipJWS (l : List Char) : List Char := l.dropWhile isJWS

/-- Value of one hexadecimal digit. -/
def hexVal (c : Char) : Option Nat :=
  if 48 ≤ c.toNat ∧ c.toNat ≤ 57 then some (c.toNat - 48)
  else if 97 ≤ c.toNat ∧ c.toNat ≤ 102 then some (c.toNat - 87)
  else if 65 ≤ c.toNat ∧ c.toNat ≤ 70 then some (c.toNat - 55)
  else none

/-- Single-character JSON escapes. -/
def escChar (e : Char) : Option Char :=
  if e == '"' then some '"'
  else if e == '\\' then some '\\'
  else if e == '/' then some '/'
  else if e == 'b' then some '\x08'
  else if e == 'f' then some '\x0c'
  else if e == 'n' then some '\n'
  else if e == 'r' then some '\r'
  else if e == 't' then some '\t'
  else none

/-- Parse the remainder of a JSON string after the opening quote; strict
mode rejects raw control characters. -/
def pStr : Nat → List Char → Option (List Char × List Char)
  | 0, _ => none
  | fuel + 1, l =>
    match l with
    | [] => none
    | c :: rest =>
      if c == '"' then some ([], rest)
      else if c == '\\' then
        match rest with
        | [] => none
        | 'u' :: r2 =>
          match r2 with
          | h1 :: h2 :: h3 :: h4 :: r3 =>
            match hexVal h1, hexVal h2, hexVal h3, hexVal h4 with
            | some a, some b, some c2, some d =>
              (pStr fuel r3).map
                (fun p => (Char.ofNat (((a * 16 + b) * 16 + c2) * 16 + d) :: p.1, p.2))
            | _, _, _, _ => none
          | _ => none
        | e :: r2 =>
          match escChar e with
          | some ch => (pStr fuel r2).map (fun p => (ch :: p.1, p.2))
          | none => none
      else if c.toNat < 32 then none
      else (pStr fuel rest).map (fun p => (c :: p.1, p.2))

/-- Optional fraction part of a JSON number (consumed only when a dot is
followed by at least one digit, as in the decoder's number regex). -/
def pFrac (l : List Char) : List Char × List Char :=
  match l with
  | '.' :: r =>
    if (r.takeWhile Char.isDigit).isEmpty then ([], '.' :: r)
    else ('.' :: r.takeWhile Char.isDigit, r.dropWhile Char.isDigit)
  | _ => ([], l)

/-- Optional exponent part of a JSON number. -/
def pExp (l : List Char) : List Char × List Char :=
  match l with
  | c :: r =>
    if c == 'e' || c == 'E' then
      match r with
      | s :: r2 =>
        if s == '+' || s == '-' then
          if (r2.takeWhile Char.isDigit).isEmpty then ([], c :: s :: r2)
          else (c :: s :: r2.takeWhile Char.isDigit, r2.dropWhile Char.isDigit)
        else
          if (r.takeWhile Char.isDigit).isEmpty then ([], c :: r)
          else (c :: r.takeWhile Char.isDigit, r.dropWhile Char.isDigit)
      | [] => ([], [c])
    else ([], c :: r)
  | [] => ([], [])

/-- Parse a JSON number token (sign, strict integer part, optional fraction
and exponent). -/
def pNum (l : List Char) : Option (List Char × List Char) :=
  match l with
  | '-' :: l1 =>
    match pNumCore l1 with
    | some (tok, r) => some ('-' :: tok, r)
    | none => none
  | _ => pNumCore l
where
  pNumCore : List Char → Option (List Char × List Char)
  | '0' :: r =>
    match pFrac r with
    | (f, r2) =>
      match pExp r2 with
      | (e, r3) => some ('0' :: (f ++ e), r3)
  | c :: r =>
    if c.isDigit then
      match pFrac (r.dropWhile Char.isDigit) with
      | (f, r2) =>
        match pExp r2 with
        | (e, r3) => some (c :: (r.takeWhile Char.isDigit ++ f ++ e), r3)
    else none
  | [] => none

mutual

/-- Parse one JSON value. -/
def pVal : Nat → List Char → Option (JVal × List Char)
  | 0, _ => none
  | fuel + 1, l =>
    match l with
    | [] => none
    | c :: rest =>
      if c == '"' then (pStr (rest.length + 1) rest).map (fun p => (JVal.jstr p.1, p.2))
      else if c == '[' then
        match skipJWS rest with
        | ']' :: r2 => some (JVal.jarr [], r2)
        | r1 => (pItems fuel r1).map (fun p => (JVal.jarr p.1, p.2))
      else if c == '\x7b' then
        match skipJWS rest with
        | '\x7d' :: r2 => some (JVal.jobj [], r2)
        | r1 => (pMembers fuel r1).map (fun p => (JVal.jobj p.1, p.2))
      else if leadsWith ['t', 'r', 'u', 'e'] l then some (JVal.jbool true, l.drop 4)
      else if leadsWith ['f', 'a', 'l', 's', 'e'] l then some (JVal.jbool false, l.drop 5)
      else if leadsWith ['n', 'u', 'l', 'l'] l then some (JVal.jnull, l.drop 4)
      else if c == '-' || c.isDigit then (pNum l).map (fun p => (JVal.jnum p.1, p.2))
      else none

/-- Parse the elements of a non-empty JSON array up to the closing
bracket. -/
def pItems : Nat → List Char → Option (List JVal × List Char)
  | 0, _ => none
  | fuel + 1, l =>
    match pVal fuel (skipJWS l) with
    | none => none
    | some (v, r) =>
      match skipJWS r with
      | ',' :: r2 => (pItems fuel r2).map (fun p => (v :: p.1, p.2))
      | ']' :: r2 => some ([v], r2)
      | _ => none

/-- Parse the members of a non-empty JSON object up to the closing
brace. -/
def pMembers : Nat → List Char → Option (List (List Char × JVal) × List Char)
  | 0, _ => none
  | fuel + 1, l =>
    match skipJWS l with
    | '"' :: r1 =>
      match pStr (r1.length + 1) r1 with
      | none => none
      | some (k, r2) =>
        match skipJWS r2 with
        | ':' :: r3 =>
          match pVal fuel (skipJWS r3) with
          | none => none
          | some (v, r4) =>
            match skipJWS r4 with
            | ',' :: r5 => (pMembers fuel r5).map (fun p => ((k, v) :: p.1, p.2))
            | '\x7d' :: r5 => some ([(k, v)], r5)
            | _ => none
        | _ => none
    | _ => none

end

/-- Model of json.loads: parse one value and require only whitespace to
remain. -/
def jsonLoads (l : List Char) : Option JVal :=
  match pVal (2 * l.length + 2) (skipJWS l) with
  | some (v, r) => if (skipJWS r).isEmpty then some v else none
  | none => none

/-- Model of Python str.split with a non-empty separator (fuelled). -/
def pySplitAux (sep : List Char) : Nat → List Char → List (List Char)
  | 0, s => [s]
  | fuel + 1, s =>
    match findSub sep s with
    | none => [s]
    | some i => s.take i :: pySplitAux sep fuel (s.drop (i + sep.length))

/-- Model of Python str.split with a non-empty separator. -/
def pySplit (sep s : List Char) : List (List Char) := pySplitAux sep (s.length + 1) s

/-- Model of re.findall of a non-greedy bracket-delimited pattern with
dot-matches-all: each match runs from a left bracket to the first right
bracket after it, scanning resumes after the match. -/
def bracketBlocksF : Nat → List Char → List (List Char)
  | 0, _ => []
  | fuel + 1, s =>
    match findSub ['['] s with
    | none => []
    | some i =>
      match findSub [']'] (s.drop (i + 1)) with
      | none => []
      | some j =>
        (s.drop i).take (j + 2) :: bracketBlocksF fuel ((s.drop (i + 1)).drop (j + 1))

/-- All non-greedy bracket-delimited blocks of s. -/
def bracketBlocks (s : List Char) : List (List Char) := bracketBlocksF s.length s

/-- Markdown code fence. -/
def fence3 : List Char := "```".data

/-- Markdown json code fence. -/
def fenceJson : List Char := "```json".data

/-- The fence-stripping step of parse_ai_response. -/
def stripFences (s : List Char) : List Char :=
  if containsSub fenceJson s then
    (pySplit fence3 ((pySplit fenceJson s).getD 1 [])).getD 0 []
  else if containsSub fence3 s then
    (pySplit fence3 ((pySplit fence3 s).getD 1 [])).getD 0 []
  else s

/-- Strategy 1 of parse_ai_response: the first-left-bracket to
last-right-bracket span, when the span is non-degenerate. -/
def spanCandidates (s : List Char) : List (List Char) :=
  match findSub ['['] s, findSub [']'] s.reverse with
  | some a, some jr =>
    if a ≤ s.length - 1 - jr then [(s.drop a).take (s.length - 1 - jr + 1 - a)] else []
  | _, _ => []

/-- The candidate list tried by parse_ai_response, in order: the whole
span, then every bracket block. -/
def aiCandidates (resp : List Char) : List (List Char) :=
  spanCandidates (pyStrip (stripFences resp)) ++ bracketBlocks (pyStrip (stripFences resp))

/-- The candidate loop of parse_ai_response: the first candidate that
parses as a non-empty JSON array wins; otherwise the empty list. -/
def tryCandidates : List (List Char) → List JVal
  | [] => []
  | c :: cs =>
    match jsonLoads c with
    | some (JVal.jarr (x :: xs)) => x :: xs
    | _ => tryCandidates cs

/-- Model of S3PDFProcessor.parse_ai_response. -/
def parseAiResponse (resp : List Char) : List JVal :=
  tryCandidates (aiCandidates resp)

theorem tryCandidates_eq (cl : List (List Char)) :
    tryCandidates cl =
      (cl.findSome? (fun c =>
        match jsonLoads c with
        | some (JVal.jarr l) => if l.isEmpty then none else some l
        | _ => none)).getD [] := by
  induction cl with
  | nil => rfl
  | cons c cs ih =>
    rw [tryCandidates, List.findSome?]
    cases hj : jsonLoads c with
    | none => simp only [hj]; exact ih
    | some v =>
      cases v with
      | jarr xs =>
        cases xs with
        | nil => simp only [hj, List.isEmpty_nil, if_pos rfl]; exact ih
        | cons x rest => simp only [hj]; rfl
      | jnull => simp only [hj]; exact ih
      | jbool b => simp only [hj]; exact ih
      | jnum tok => simp only [hj]; exact ih
      | jstr s => simp only [hj]; exact ih
      | jobj fs => simp only [hj]; exact ih

/-- C4: parse_ai_response always returns a list (never raises): it returns
the first candidate — over the first-bracket/last-bracket span followed by
every bracket-delimited block of the fence-stripped text — that parses as a
non-empty JSON array, and the empty list when no candidate parses; on the
fenced example it yields the one-row table, and on a truncated candidate it
yields the empty list. -/
theorem claim4_parse_resilience :
    (∀ resp : List Char,
      parseAiResponse resp =
        ((aiCandidates resp).findSome? (fun c =>
          match jsonLoads c with
          | some (JVal.jarr l) => if l.isEmpty then none else some l
          | _ => none)).getD []) ∧
    parseAiResponse ("Here is the data:\n```json\n[\x7b\"a\":1\x7d]\n```\nThanks!".data) =
      [JVal.jobj [(['a'], JVal.jnum ['1'])]] ∧
    parseAiResponse ("[invalid json".data) = [] := by
  refine ⟨fun resp => tryCandidates_eq (aiCandidates resp), ?_, ?_⟩
  · rfl
  · rfl

/-! Model of PDFProcessingService.extract_text_from_pdf.  A PDF is
abstracted as the list of per-page outcomes of page.extract_text: either
extracted text or a raised exception message. -/

/-- One page record of the extraction result. -/
structure PageInfo where
  pageNumber : Nat
  text : List Char
  charCount : Nat
  wordCount : Nat
  error : Option String
deriving DecidableEq

/-- Default page record (for safe indexing in statements). -/
def dfltPage : PageInfo := ⟨0, [], 0, 0, none⟩

/-- The document-level extraction result. -/
structure ExtractResult where
  success : Bool
  fullText : List Char
  pages : List PageInfo
  pageCount : Nat
  totalChars : Nat
  totalWords : Nat
deriving DecidableEq

/-- The page loop of extract_text_from_pdf: successful pages append their
text plus a blank-line separator to the accumulated text, failing pages
contribute an error record with empty text and nothing to the text. -/
def buildPages : Nat → List Char → List (Except String (List Char)) →
    List Char × List PageInfo
  | _, acc, [] => (acc, [])
  | n, acc, Except.ok t :: ps =>
    let r := buildPages (n + 1) (acc ++ t ++ ['\n', '\n']) ps
    (r.1, ⟨n + 1, t, t.length, if t.isEmpty then 0 else pyWordCount t, none⟩ :: r.2)
  | n, acc, Except.error e :: ps =>
    let r := buildPages (n + 1) acc ps
    (r.1, ⟨n + 1, [], 0, 0, some e⟩ :: r.2)

/-- Model of extract_text_from_pdf over the per-page outcomes. -/
def extractTextFromPdf (pagesIn : List (Except String (List Char))) : ExtractResult :=
  ⟨true, pyStrip (buildPages 0 [] pagesIn).1, (buildPages 0 [] pagesIn).2,
   pagesIn.length, (buildPages 0 [] pagesIn).1.length,
   if (buildPages 0 [] pagesIn).1.isEmpty then 0
   else pyWordCount (buildPages 0 [] pagesIn).1⟩

theorem buildPages_pages :
    ∀ (ps : List (Except String (List Char))) (n : Nat) (acc : List Char),
      ((buildPages n acc ps).2).length = ps.length ∧
      (∀ k, k < ps.length →
        ((buildPages n acc ps).2).getD k dfltPage =
          match ps.getD k (Except.error "") with
          | Except.ok t =>
            ⟨n + k + 1, t, t.length, if t.isEmpty then 0 else pyWordCount t, none⟩
          | Except.error e => ⟨n + k + 1, [], 0, 0, some e⟩) := by
  intro ps
  induction ps with
  | nil => intro n acc; exact ⟨rfl, fun k hk => absurd hk (by simp)⟩
  | cons p rest ih =>
    intro n acc
    cases p with
    | ok t =>
      refine ⟨?_, ?_⟩
      · simp only [buildPages, List.length_cons, (ih (n + 1) (acc ++ t ++ ['\n', '\n'])).1]
      intro k hk
      cases k with
      | zero => rfl
      | succ k =>
        have := (ih (n + 1) (acc ++ t ++ ['\n', '\n'])).2 k (by simpa using hk)
        simp only [buildPages, List.getD_cons_succ]
        rw [this]
        have harith : n + 1 + k = n + (k + 1) := by omega
        rw [harith]
    | error e =>
      refine ⟨?_, ?_⟩
      · simp only [buildPages, List.length_cons, (ih (n + 1) acc).1]
      intro k hk
      cases k with
      | zero => rfl
      | succ k =>
        have := (ih (n + 1) acc).2 k (by simpa using hk)
        simp only [buildPages, List.getD_cons_succ]
        rw [this]
        have harith : n + 1 + k = n + (k + 1) := by omega
        rw [harith]

/-- A self-fixed left strip pins the head to non-whitespace. -/
theorem stripLeft_self_head {t : List Char} (h : stripLeft t = t) :
    ∀ c, t.head? = some c → isPySpace c = false := by
  intro c hc
  cases t with
  | nil => simp at hc
  | cons d ds =>
    have hdc : d = c := by simpa using hc
    by_cases hd : isPySpace d
    · rw [stripLeft, List.dropWhile_cons, if_pos (by simpa using hd)] at h
      have hlen := congrArg List.length h
      have hle := (List.dropWhile_sublist (l := ds) (p := isPySpace)).length_le
      simp at hlen
      omega
    · rw [← hdc]
      simpa using hd

/-- A self-fixed right strip pins the last character to non-whitespace. -/
theorem stripRight_self_last {t : List Char} (h : stripRight t = t) :
    ∀ c, t.reverse.head? = some c → isPySpace c = false := by
  intro c hc
  have hrev : t.reverse.dropWhile isPySpace = t.reverse := by
    rw [stripRight] at h
    have := congrArg List.reverse h
    simpa using this
  cases hr : t.reverse with
  | nil => rw [hr] at hc; simp at hc
  | cons d ds =>
    rw [hr] at hc
    have hdc : d = c := by simpa using hc
    rw [hr] at hrev
    by_cases hd : isPySpace d
    · rw [List.dropWhile_cons, if_pos (by simpa using hd)] at hrev
      have hlen := congrArg List.length hrev
      have hle := (List.dropWhile_sublist (l := ds) (p := isPySpace)).length_le
      simp at hlen
      omega
    · rw [← hdc]
      simpa using hd

/-- Stripping the page accumulator of the 3-page scenario keeps exactly the
two page texts and their separator. -/
theorem pyStrip_scenario {t1 t3 : List Char}
    (h1 : stripLeft t1 = t1) (h3 : stripRight t3 = t3)
    (hne1 : t1 ≠ []) (hne3 : t3 ≠ []) :
    pyStrip (t1 ++ ['\n', '\n'] ++ t3 ++ ['\n', '\n']) =
      t1 ++ ['\n', '\n'] ++ t3 := by
  rw [pyStrip]
  have hL : stripLeft (t1 ++ ['\n', '\n'] ++ t3 ++ ['\n', '\n']) =
      t1 ++ ['\n', '\n'] ++ t3 ++ ['\n', '\n'] := by
    apply stripLeft_eq_self
    intro c hc
    have hhd : t1.head? = some c := by
      cases t1 with
      | nil => exact absurd rfl hne1
      | cons d ds => simpa using hc
    exact stripLeft_self_head h1 c hhd
  rw [hL, stripRight]
  obtain ⟨d, ds, hds⟩ : ∃ d ds, t3.reverse = d :: ds := by
    cases hr : t3.reverse with
    | nil =>
      exact absurd (by simpa using congrArg List.reverse hr) hne3
    | cons d ds => exact ⟨d, ds, rfl⟩
  have hdns : isPySpace d = false := stripRight_self_last h3 d (by rw [hds]; simp)
  have hrev : (t1 ++ ['\n', '\n'] ++ t3 ++ ['\n', '\n']).reverse =
      '\n' :: '\n' :: (d :: (ds ++ ('\n' :: '\n' :: t1.reverse))) := by
    simp [hds]
  rw [hrev]
  rw [List.dropWhile_cons, if_pos (by decide), List.dropWhile_cons, if_pos (by decide)]
  rw [List.dropWhile_cons, if_neg (by simp [hdns])]
  have : (d :: (ds ++ ('\n' :: '\n' :: t1.reverse))).reverse =
      t1 ++ ['\n', '\n'] ++ (d :: ds).reverse := by
    simp
  rw [this, ← hds]
  simp

/-- C6: per-page extraction failures do not abort the document: the result
is success, one page record per page, failing pages carrying the error with
empty text and successful pages carrying their text; in the 3-page scenario
failing only on page 2, the result has page_count 3, two non-empty-text
pages, one error page, and full_text is page 1 and page 3 joined by a blank
line. -/
theorem claim6_per_page_errors :
    (∀ ps : List (Except String (List Char)),
      (extractTextFromPdf ps).success = true ∧
      (extractTextFromPdf ps).pageCount = ps.length ∧
      (extractTextFromPdf ps).pages.length = ps.length ∧
      (∀ k, k < ps.length →
        (∀ t, ps.getD k (Except.error "") = Except.ok t →
          ((extractTextFromPdf ps).pages.getD k dfltPage).text = t ∧
          ((extractTextFromPdf ps).pages.getD k dfltPage).error = none) ∧
        (∀ e, ps.getD k (Except.error "") = Except.error e → e ≠ "" →
          ((extractTextFromPdf ps).pages.getD k dfltPage).text = [] ∧
          ((extractTextFromPdf ps).pages.getD k dfltPage).error = some e))) ∧
    (∀ (t1 t3 : List Char) (e : String),
      stripLeft t1 = t1 → stripRight t3 = t3 → t1 ≠ [] → t3 ≠ [] →
      (extractTextFromPdf [Except.ok t1, Except.error e, Except.ok t3]).pageCount = 3 ∧
      ((extractTextFromPdf [Except.ok t1, Except.error e, Except.ok t3]).pages.filter
        (fun p => !p.text.isEmpty)).length = 2 ∧
      ((extractTextFromPdf [Except.ok t1, Except.error e, Except.ok t3]).pages.filter
        (fun p => p.error.isSome)).length = 1 ∧
      (extractTextFromPdf [Except.ok t1, Except.error e, Except.ok t3]).fullText =
        t1 ++ ['\n', '\n'] ++ t3) := by
  constructor
  · intro ps
    refine ⟨rfl, rfl, (buildPages_pages ps 0 []).1, ?_⟩
    intro k hk
    have hrec := (buildPages_pages ps 0 []).2 k hk
    constructor
    · intro t ht
      show ((buildPages 0 [] ps).2.getD k dfltPage).text = t ∧
        ((buildPages 0 [] ps).2.getD k dfltPage).error = none
      rw [hrec, ht]
      exact ⟨rfl, rfl⟩
    · intro e he _
      show ((buildPages 0 [] ps).2.getD k dfltPage).text = [] ∧
        ((buildPages 0 [] ps).2.getD k dfltPage).error = some e
      rw [hrec, he]
      exact ⟨rfl, rfl⟩
  · intro t1 t3 e h1 h3 hne1 hne3
    refine ⟨rfl, ?_, ?_, ?_⟩
    · have he1 : t1.isEmpty = false := by
        cases t1 with
        | nil => exact absurd rfl hne1
        | cons a as => rfl
      have he3 : t3.isEmpty = false := by
        cases t3 with
        | nil => exact absurd rfl hne3
        | cons a as => rfl
      simp [extractTextFromPdf, buildPages, List.filter, he1, he3]
    · simp [extractTextFromPdf, buildPages, List.filter]
    · simpa [extractTextFromPdf, buildPages] using pyStrip_scenario h1 h3 hne1 hne3

/-- Witness for C6 at a concrete 3-page document failing on page 2. -/
theorem claim6_per_page_errors_witness :
    stripLeft "Hello page one".data = "Hello page one".data ∧
    stripRight "Page three".data = "Page three".data ∧
    (extractTextFromPdf [Except.ok "Hello page one".data, Except.error "boom",
      Except.ok "Page three".data]).pageCount = 3 ∧
    ((extractTextFromPdf [Except.ok "Hello page one".data, Except.error "boom",
      Except.ok "Page three".data]).pages.filter (fun p => !p.text.isEmpty)).length = 2 ∧
    ((extractTextFromPdf [Except.ok "Hello page one".data, Except.error "boom",
      Except.ok "Page three".data]).pages.filter (fun p => p.error.isSome)).length = 1 ∧
    (extractTextFromPdf [Except.ok "Hello page one".data, Except.error "boom",
      Except.ok "Page three".data]).fullText =
      "Hello page one".data ++ ['\n', '\n'] ++ "Page three".data := by
  refine ⟨by rfl, by rfl, ?_⟩
  exact claim6_per_page_errors.2 "Hello page one".data "Page three".data "boom"
    (by rfl) (by rfl) (by simp) (by simp)

/-! Model of the cash-flow projection table
(S3PDFProcessor.create_cashflow_delta_table).  DataFrame rows are modelled
as association lists of cell values; numbers are modelled exactly as
rationals. -/

/-- One cell value of an extracted row: a string or a number. -/
inductive Val where
  | vs (x : List Char)
  | vn (q : Rat)
deriving DecidableEq

/-- One extracted table row (a dict from column name to cell value). -/
abbrev Row := List (String × Val)

/-- Extracted tables keyed by table type. -/
abbrev TablesData := List (String × List Row)

/-- Model of dict.get with a default. -/
def rowGet (r : Row) (k : String) (d : Val) : Val :=
  match r.find? (fun kv => kv.1 == k) with
  | some kv => kv.2
  | none => d

/-- Model of dict.get on the tables mapping. -/
def tdGet (t : TablesData) (k : String) : Option (List Row) :=
  match t.find? (fun kv => kv.1 == k) with
  | some kv => some kv.2
  | none => none

/-- Model of str.lower for the keyword heuristics. -/
def lowerL (l : List Char) : List Char := l.map Char.toLower

/-- Digits to a natural number. -/
def digitsToNat (ds : List Char) : Nat :=
  ds.foldl (fun a c => a * 10 + (c.toNat - 48)) 0

/-- Value of an integer part and a fraction part. -/
def numFromDigits (ipart fpart : List Char) : Rat :=
  (digitsToNat ipart : Rat) + (digitsToNat fpart : Rat) / ((10 : Rat) ^ fpart.length)

/-- First match of the digits-dot-digits pattern in a string (the regex
used to pull a number out of a monetary cell), as an exact rational. -/
def firstNumScan : List Char → Option Rat
  | [] => none
  | c :: cs =>
    if c.isDigit then
      match cs.dropWhile Char.isDigit with
      | '.' :: r2 =>
        some (numFromDigits (c :: cs.takeWhile Char.isDigit) (r2.takeWhile Char.isDigit))
      | _ => some (numFromDigits (c :: cs.takeWhile Char.isDigit) [])
    else firstNumScan cs

/-- The number extraction of create_cashflow_delta_table: replace commas by
dots, then take the first numeric match. -/
def firstNumMatch (s : List Char) : Option Rat :=
  firstNumScan (s.map (fun c => if c == ',' then '.' else c))

/-- Decimal digits of a natural number. -/
def natToStr (n : Nat) : List Char := Nat.toDigits 10 n

/-- Model of Python str() on a cell value.  Integer numbers render as their
decimal digits; non-integer rationals use a num/den rendering (the binary
float repr of Python is not modelled — no theorem relies on it). -/
def pyStrVal : Val → List Char
  | .vs x => x
  | .vn q =>
    if q.den = 1 then
      (if q.num < 0 then '-' :: natToStr q.num.natAbs else natToStr q.num.natAbs)
    else
      (if q.num < 0 then '-' :: natToStr q.num.natAbs else natToStr q.num.natAbs)
        ++ '/' :: natToStr q.den

/-- The contract-total loop of create_cashflow_delta_table: sum the first
numeric match of each value row's valor cell, skipping rows without one. -/
def totalContractValue (vals : List Row) : Rat :=
  vals.foldl (fun acc row =>
    match firstNumMatch (pyStrVal (rowGet row "valor" (rowGet row "Valor" (Val.vn 0)))) with
    | some v => acc + v
    | none => acc) 0

/-- One output row of the cash-flow table.  The two timestamp columns are
modelled by the single parameter now. -/
structure CashRow where
  arquivo : String
  dataPrevista : Val
  descricaoFluxo : List Char
  valorEstimado : Val
  percentualTotal : Rat
  dataAnalise : String
deriving DecidableEq

/-- Default cash-flow row (for safe indexing in statements). -/
def dfltCashRow : CashRow := ⟨"", Val.vs [], [], Val.vn 0, 0, ""⟩

/-- One iteration of the schedule loop of create_cashflow_delta_table.
A non-string description makes str.lower raise, and a string estimated
value combined with a positive total makes the percentage division raise;
both abort the whole function (none). -/
def cashRowOf (filename now : String) (total : Rat) (nrows : Nat) (row : Row) :
    Option CashRow :=
  match rowGet row "Descrição" (rowGet row "Descricao" (Val.vs [])) with
  | Val.vn _ => none
  | Val.vs desc =>
    let sv := rowGet row "Valor" (Val.vn 0)
    let est : Val :=
      if sv = Val.vn 0 ∨ sv = Val.vs [] then
        Val.vn (if containsSub "entrada".data (lowerL desc) then total * (3 / 10)
          else if containsSub "parcela".data (lowerL desc) then total * (2 / 10)
          else if containsSub "final".data (lowerL desc) then total * (1 / 10)
          else total / (nrows : Rat))
      else sv
    match est with
    | Val.vn q =>
      some ⟨filename, rowGet row "Data/Prazo" (rowGet row "Data" (Val.vs [])), desc,
        Val.vn q, if 0 < total then q / total * 100 else 0, now⟩
    | Val.vs s =>
      if 0 < total then none
      else some ⟨filename, rowGet row "Data/Prazo" (rowGet row "Data" (Val.vs [])), desc,
        Val.vs s, 0, now⟩

/-- Sequence a list of fallible computations (a raised exception aborts the
whole list). -/
def seqOpt {β : Type} : List (Option β) → Option (List β)
  | [] => some []
  | none :: _ => none
  | some x :: rest => (seqOpt rest).map (fun ys => x :: ys)

/-- Model of S3PDFProcessor.create_cashflow_delta_table. -/
def createCashflowDeltaTable (tables : TablesData) (filename now : String) :
    Option (List CashRow) :=
  match tdGet tables "cronograma_pagamentos", tdGet tables "valores_contrato" with
  | some sched, some vals =>
    if sched ≠ [] ∧ vals ≠ [] then
      seqOpt (sched.map (cashRowOf filename now (totalContractValue vals) sched.length))
    else some []
  | _, _ => some []

theorem seqOpt_spec {α β : Type} (f : α → Option β) :
    ∀ l : List α, (∀ x ∈ l, ∃ y, f x = some y) →
      ∃ out, seqOpt (l.map f) = some out ∧ out.length = l.length ∧
        ∀ k (dA : α) (dB : β), k < l.length →
          f (l.getD k dA) = some (out.getD k dB) := by
  intro l
  induction l with
  | nil => intro _; exact ⟨[], rfl, rfl, fun k dA dB hk => absurd hk (by simp)⟩
  | cons x rest ih =>
    intro h
    obtain ⟨y, hy⟩ := h x (by simp)
    obtain ⟨out, hout, hlen, hidx⟩ := ih (fun z hz => h z (List.mem_cons_of_mem _ hz))
    refine ⟨y :: out, ?_, by simpa using hlen, ?_⟩
    · rw [List.map_cons, hy, seqOpt, hout]
      rfl
    · intro k dA dB hk
      cases k with
      | zero => simpa using hy
      | succ k => simpa using hidx k dA dB (by simpa using hk)

/-- The per-row allocation of cashRowOf on a well-formed schedule row:
an explicit non-zero numeric value is kept, otherwise the keyword
percentages of the TOTAL contract value apply, with an even split of the
total as default. -/
theorem cashRowOf_wf (filename now : String) (total : Rat) (nrows : Nat)
    (row : Row) (d : List Char) (q : Rat)
    (hd : rowGet row "Descrição" (rowGet row "Descricao" (Val.vs [])) = Val.vs d)
    (hq : rowGet row "Valor" (Val.vn 0) = Val.vn q) :
    ∃ cr, cashRowOf filename now total nrows row = some cr ∧
      cr.valorEstimado =
        Val.vn (if q ≠ 0 then q
          else if containsSub "entrada".data (lowerL d) then total * (3 / 10)
          else if containsSub "parcela".data (lowerL d) then total * (2 / 10)
          else if containsSub "final".data (lowerL d) then total * (1 / 10)
          else total / (nrows : Rat)) := by
  rw [cashRowOf, hd]
  simp only [hq]
  by_cases hz : q = 0
  · subst hz
    rw [if_pos (Or.inl rfl)]
    refine ⟨_, rfl, ?_⟩
    have h00 : ¬((0 : Rat) ≠ 0) := by simp
    rw [if_neg h00]
  · have hcond : ¬(Val.vn q = Val.vn 0 ∨ Val.vn q = Val.vs []) := by
      intro hor
      rcases hor with h | h
      · exact hz (by injection h)
      · cases h
    rw [if_neg hcond]
    refine ⟨_, rfl, ?_⟩
    rw [if_pos hz]

/-- Amended C8: in the cash-flow projection table, a schedule row carrying
an explicit non-zero numeric value keeps it; a row without one is allocated
30% of the total contract value when its description contains entrada,
else 20% for parcela, else 10% for final, and otherwise an even split of
the TOTAL contract value over all schedule rows (total/len, not a split of
the remaining value). -/
theorem claim8_cashflow_allocation_amended
    (tables : TablesData) (filename now : String) (sched vals : List Row)
    (hs : tdGet tables "cronograma_pagamentos" = some sched)
    (hv : tdGet tables "valores_contrato" = some vals)
    (hsne : sched ≠ []) (hvne : vals ≠ [])
    (hwf : ∀ row ∈ sched,
      (∃ d, rowGet row "Descrição" (rowGet row "Descricao" (Val.vs [])) = Val.vs d) ∧
      (∃ q, rowGet row "Valor" (Val.vn 0) = Val.vn q)) :
    ∃ out, createCashflowDeltaTable tables filename now = some out ∧
      out.length = sched.length ∧
      ∀ k, k < sched.length → ∀ d q,
        rowGet (sched.getD k []) "Descrição"
          (rowGet (sched.getD k []) "Descricao" (Val.vs [])) = Val.vs d →
        rowGet (sched.getD k []) "Valor" (Val.vn 0) = Val.vn q →
        (out.getD k dfltCashRow).valorEstimado =
          Val.vn (if q ≠ 0 then q
            else if containsSub "entrada".data (lowerL d) then
              totalContractValue vals * (3 / 10)
            else if containsSub "parcela".data (lowerL d) then
              totalContractValue vals * (2 / 10)
            else if containsSub "final".data (lowerL d) then
              totalContractValue vals * (1 / 10)
            else totalContractValue vals / (sched.length : Rat)) := by
  have hun : createCashflowDeltaTable tables filename now =
      seqOpt (sched.map (cashRowOf filename now (totalContractValue vals) sched.length)) := by
    unfold createCashflowDeltaTable
    simp only [hs, hv]
    rw [if_pos (And.intro hsne hvne)]
  rw [hun]
  have hall : ∀ row ∈ sched, ∃ cr,
      cashRowOf filename now (totalContractValue vals) sched.length row = some cr := by
    intro row hr
    obtain ⟨⟨d, hd⟩, ⟨q, hq⟩⟩ := hwf row hr
    obtain ⟨cr, hcr, _⟩ := cashRowOf_wf filename now (totalContractValue vals)
      sched.length row d q hd hq
    exact ⟨cr, hcr⟩
  obtain ⟨out, hout, hlen, hidx⟩ := seqOpt_spec
    (cashRowOf filename now (totalContractValue vals) sched.length) sched hall
  refine ⟨out, hout, hlen, ?_⟩
  intro k hk d q hd hq
  obtain ⟨cr, hcr, hval⟩ := cashRowOf_wf filename now (totalContractValue vals)
    sched.length (sched.getD k []) d q hd hq
  have := hidx k [] dfltCashRow hk
  rw [hcr] at this
  injection this with hthis
  rw [← hthis, hval]

/-- The contract total of the single 100-unit value row used in the C8
instances. -/
theorem totalContract_100 :
    totalContractValue [[("valor", Val.vs "100".data)]] = 100 := by
  have h : totalContractValue [[("valor", Val.vs "100".data)]] =
      0 + numFromDigits ['1', '0', '0'] [] := rfl
  have hd1 : digitsToNat ['1', '0', '0'] = 100 := rfl
  have hd0 : digitsToNat ([] : List Char) = 0 := rfl
  rw [h, numFromDigits, hd1, hd0]
  norm_num

/-- Witness for the amended C8: a two-row schedule (an entrada row and an
explicit-value row) against a 100-unit contract value. -/
theorem claim8_cashflow_allocation_amended_witness :
    ∃ out, createCashflowDeltaTable
        [("cronograma_pagamentos",
          [[("Descricao", Val.vs "entrada".data), ("Valor", Val.vn 0)],
           [("Descricao", Val.vs "mensal".data), ("Valor", Val.vn 40)]]),
         ("valores_contrato", [[("valor", Val.vs "100".data)]])]
        "f.pdf" "2024-01-01" = some out ∧
      out.length = 2 ∧
      (out.getD 0 dfltCashRow).valorEstimado = Val.vn 30 ∧
      (out.getD 1 dfltCashRow).valorEstimado = Val.vn 40 := by
  obtain ⟨out, hout, hlen, hidx⟩ := claim8_cashflow_allocation_amended
    [("cronograma_pagamentos",
      [[("Descricao", Val.vs "entrada".data), ("Valor", Val.vn 0)],
       [("Descricao", Val.vs "mensal".data), ("Valor", Val.vn 40)]]),
     ("valores_contrato", [[("valor", Val.vs "100".data)]])]
    "f.pdf" "2024-01-01"
    [[("Descricao", Val.vs "entrada".data), ("Valor", Val.vn 0)],
     [("Descricao", Val.vs "mensal".data), ("Valor", Val.vn 40)]]
    [[("valor", Val.vs "100".data)]]
    rfl rfl (by simp) (by simp)
    (by
      intro row hr
      simp only [List.mem_cons, List.not_mem_nil, or_false] at hr
      rcases hr with rfl | rfl
      · exact ⟨⟨_, rfl⟩, ⟨_, rfl⟩⟩
      · exact ⟨⟨_, rfl⟩, ⟨_, rfl⟩⟩)
  refine ⟨out, hout, hlen, ?_, ?_⟩
  · have h0 := hidx 0 (by simp) "entrada".data 0 rfl rfl
    rw [h0]
    have hne : ¬((0 : Rat) ≠ 0) := by simp
    have hcond : containsSub "entrada".data (lowerL "entrada".data) = true := rfl
    rw [if_neg hne, if_pos hcond, totalContract_100]
    norm_num
  · have h1 := hidx 1 (by simp) "mensal".data 40 rfl rfl
    rw [h1]
    have hne : (40 : Rat) ≠ 0 := by norm_num
    rw [if_pos hne]

/-- C8 counterexample: the original claim allocates the default rows an
even split of the REMAINING contract value; on a two-row schedule (one
entrada row, one keyword-free row) with total 100, the code gives the
keyword-free row 100/2 = 50, while the remaining value after the 30%
entrada allocation is 70 — and 50 is not 70. -/
theorem claim8_counterexample :
    (createCashflowDeltaTable
      [("cronograma_pagamentos",
        [[("Descricao", Val.vs "entrada".data), ("Valor", Val.vn 0)],
         [("Descricao", Val.vs "taxa".data), ("Valor", Val.vn 0)]]),
       ("valores_contrato", [[("valor", Val.vs "100".data)]])]
      "f.pdf" "2024-01-01").map (fun rows => rows.map (fun r => r.valorEstimado)) =
      some [Val.vn 30, Val.vn 50] ∧
    (100 : Rat) - 100 * (3 / 10) = 70 ∧ (50 : Rat) ≠ 70 := by
  refine ⟨?_, by norm_num, by norm_num⟩
  obtain ⟨r1, hr1, hv1⟩ := cashRowOf_wf "f.pdf" "2024-01-01"
    (totalContractValue [[("valor", Val.vs "100".data)]]) 2
    [("Descricao", Val.vs "entrada".data), ("Valor", Val.vn 0)]
    "entrada".data 0 rfl rfl
  obtain ⟨r2, hr2, hv2⟩ := cashRowOf_wf "f.pdf" "2024-01-01"
    (totalContractValue [[("valor", Val.vs "100".data)]]) 2
    [("Descricao", Val.vs "taxa".data), ("Valor", Val.vn 0)]
    "taxa".data 0 rfl rfl
  have hrun : createCashflowDeltaTable
      [("cronograma_pagamentos",
        [[("Descricao", Val.vs "entrada".data), ("Valor", Val.vn 0)],
         [("Descricao", Val.vs "taxa".data), ("Valor", Val.vn 0)]]),
       ("valores_contrato", [[("valor", Val.vs "100".data)]])]
      "f.pdf" "2024-01-01" =
      seqOpt [cashRowOf "f.pdf" "2024-01-01"
          (totalContractValue [[("valor", Val.vs "100".data)]]) 2
          [("Descricao", Val.vs "entrada".data), ("Valor", Val.vn 0)],
        cashRowOf "f.pdf" "2024-01-01"
          (totalContractValue [[("valor", Val.vs "100".data)]]) 2
          [("Descricao", Val.vs "taxa".data), ("Valor", Val.vn 0)]] := rfl
  rw [hrun, hr1, hr2]
  have hseq : seqOpt [some r1, some r2] = some [r1, r2] := rfl
  rw [hseq]
  have hne : ¬((0 : Rat) ≠ 0) := by simp
  have hc1 : containsSub "entrada".data (lowerL "entrada".data) = true := rfl
  rw [if_neg hne, if_pos hc1, totalContract_100] at hv1
  have hc2a : containsSub "entrada".data (lowerL "taxa".data) = false := rfl
  have hc2b : containsSub "parcela".data (lowerL "taxa".data) = false := rfl
  have hc2c : containsSub "final".data (lowerL "taxa".data) = false := rfl
  rw [if_neg hne, if_neg (by rw [hc2a]; simp), if_neg (by rw [hc2b]; simp),
    if_neg (by rw [hc2c]; simp), totalContract_100] at hv2
  have h30 : (100 : Rat) * (3 / 10) = 30 := by norm_num
  have h50 : (100 : Rat) / ((2 : Nat) : Rat) = 50 := by norm_num
  rw [h30] at hv1
  rw [h50] at hv2
  simp [hv1, hv2]

/-!
## Delta snapshot generation and the CSV save phase

`generate_and_save_delta_tables_to_s3` (s3_pdf_processor.py:625-726) builds the
`delta_files` mapping, calling the per-table builders
(`create_financial_delta_table`, `create_renda_fixa_delta_table`,
`create_product_value_delta_table`, `create_cashflow_delta_table`) and the two
writers (`save_or_append_delta_table_to_s3`, `save_delta_table_to_s3`).  The
builders and writers are separate functions of the class; here they are
abstracted as the fields of `DeltaOps`, over an abstract DataFrame type `δ` and
an abstract external-effects state `σ` (every S3 write and every Glue catalog
registration performed by the writers goes through `σ`).  The control flow of
`generate_and_save_delta_tables_to_s3` itself is translated line by line.
-/

structure DeltaOps (δ σ : Type) where
  isEmptyDF : δ → Bool
  createFinancial : List (String × δ) → String → δ
  createRendaFixa : List (String × δ) → String → δ
  createProductValue : List (String × δ) → String → δ
  createCashflow : List (String × δ) → String → δ
  saveOrAppend : δ → String → String → σ → String × σ
  saveDelta : δ → String → σ → String × σ

/-- `key in tables_data` (Python dict membership, insertion-ordered assoc list). -/
def tdContains {δ : Type} (tables : List (String × δ)) (k : String) : Bool :=
  tables.any (fun kv => kv.1 == k)

/-- `tables_data[key]` lookup as an option. -/
def tdFind {δ : Type} (tables : List (String × δ)) (k : String) : Option δ :=
  (tables.find? (fun kv => kv.1 == k)).map (fun kv => kv.2)

/-- `key in tables_data and not tables_data[key].empty`
    (s3_pdf_processor.py:662 and 669). -/
def hasNonEmpty {δ σ : Type} (ops : DeltaOps δ σ)
    (tables : List (String × δ)) (k : String) : Bool :=
  match tdFind tables k with
  | some df => !ops.isEmptyDF df
  | none => false

/-- `any('valor' in k for k in tables_data.keys())` (s3_pdf_processor.py:700,710). -/
def anyValorKey {δ : Type} (tables : List (String × δ)) : Bool :=
  tables.any (fun kv => containsSub "valor".data kv.1.data)

/-- `generate_and_save_delta_tables_to_s3` (s3_pdf_processor.py:650-726): the
no-data guard at lines 676-679, then the four conditional delta sections,
threading the effect state through the writers. -/
def generateAndSaveDeltaTables {δ σ : Type} (ops : DeltaOps δ σ)
    (tables : List (String × δ)) (filename baseFilename timestamp : String)
    (s : σ) : List (String × String) × σ :=
  let hasInv := hasNonEmpty ops tables "investimento_financeiro"
  let hasRF := hasNonEmpty ops tables "renda_fixa"
  if !hasInv && !hasRF then ([], s)
  else
    let p1 : List (String × String) × σ :=
      if hasInv then
        let fd := ops.createFinancial tables filename
        if !ops.isEmptyDF fd then
          let r := ops.saveOrAppend fd "investimento" filename s
          ([("delta_investimento", r.1)], r.2)
        else ([], s)
      else ([], s)
    let p2 : List (String × String) × σ :=
      if hasRF then
        let fd := ops.createRendaFixa tables filename
        if !ops.isEmptyDF fd then
          let r := ops.saveOrAppend fd "renda_fixa" filename p1.2
          (p1.1 ++ [("delta_renda_fixa", r.1)], r.2)
        else p1
      else p1
    let p3 : List (String × String) × σ :=
      if hasInv && (tdContains tables "produtos_servicos" ||
            tdContains tables "investimento_financeiro") &&
          (tdContains tables "valores_contrato" || anyValorKey tables) then
        let fd := ops.createProductValue tables filename
        if !ops.isEmptyDF fd then
          let r := ops.saveDelta fd
            (baseFilename ++ "_delta_produto_valor_" ++ timestamp) p2.2
          (p2.1 ++ [("delta_produto_valor", r.1)], r.2)
        else p2
      else p2
    let p4 : List (String × String) × σ :=
      if hasInv && tdContains tables "cronograma_pagamentos" &&
          (tdContains tables "valores_contrato" || anyValorKey tables) then
        let fd := ops.createCashflow tables filename
        if !ops.isEmptyDF fd then
          let r := ops.saveDelta fd
            (baseFilename ++ "_delta_fluxo_caixa_" ++ timestamp) p3.2
          (p3.1 ++ [("delta_fluxo_caixa", r.1)], r.2)
        else p3
      else p3
    p4

/-- The guard at s3_pdf_processor.py:676-679: with neither primary table
present-and-non-empty, the function returns the empty mapping without touching
the effect state. -/
theorem generateAndSaveDeltaTables_noPrimary {δ σ : Type} (ops : DeltaOps δ σ)
    (tables : List (String × δ)) (filename baseFilename timestamp : String)
    (s : σ)
    (hinv : hasNonEmpty ops tables "investimento_financeiro" = false)
    (hrf : hasNonEmpty ops tables "renda_fixa" = false) :
    generateAndSaveDeltaTables ops tables filename baseFilename timestamp s
      = ([], s) := by
  simp [generateAndSaveDeltaTables, hinv, hrf]

set_option maxRecDepth 2000

/-- C5: for every extracted-tables mapping in which neither
`investimento_financeiro` nor `renda_fixa` is present as a non-empty table,
`generate_and_save_delta_tables_to_s3` returns an empty mapping and leaves the
external-effects state (through which every snapshot data file, log entry, and
catalog registration would be written) unchanged — for every choice of builder
and writer behavior. -/
theorem claim5_no_data_policy {δ σ : Type} (ops : DeltaOps δ σ)
    (tables : List (String × δ)) (filename baseFilename timestamp : String)
    (s : σ)
    (hinv : hasNonEmpty ops tables "investimento_financeiro" = false)
    (hrf : hasNonEmpty ops tables "renda_fixa" = false) :
    generateAndSaveDeltaTables ops tables filename baseFilename timestamp s
      = ([], s) :=
  generateAndSaveDeltaTables_noPrimary ops tables filename baseFilename
    timestamp s hinv hrf

def opsW : DeltaOps Bool Nat where
  isEmptyDF := fun b => b
  createFinancial := fun _ _ => false
  createRendaFixa := fun _ _ => false
  createProductValue := fun _ _ => false
  createCashflow := fun _ _ => false
  saveOrAppend := fun _ _ _ n => ("written", n + 1)
  saveDelta := fun _ _ n => ("written", n + 1)

/-- Witness for C5: a mapping holding only an empty `investimento_financeiro`
table produces no delta files and an unchanged effect counter. -/
theorem claim5_no_data_policy_witness :
    hasNonEmpty opsW [("investimento_financeiro", true)]
        "investimento_financeiro" = false ∧
    hasNonEmpty opsW [("investimento_financeiro", true)] "renda_fixa" = false ∧
    generateAndSaveDeltaTables opsW [("investimento_financeiro", true)]
        "doc.pdf" "doc" "20250101000000" 0 = ([], 0) :=
  ⟨rfl, rfl,
    claim5_no_data_policy opsW [("investimento_financeiro", true)]
      "doc.pdf" "doc" "20250101000000" 0 rfl rfl⟩

/-!
`save_tables_to_s3_csv` (s3_pdf_processor.py:585-623) with its local fallback
`save_tables_locally` (s3_pdf_processor.py:1271-1288), and the save phase of
`process_pdf_with_table_extraction` (s3_pdf_processor.py:213-229).  External
writes are recorded as events.
-/

inductive S3Event where
  | csvPut (key : String) (table : String)
  | localCsvWrite (path : String) (table : String)
deriving DecidableEq

def bucketName : String := "dl-landing-zone-ca-central-1-stage"

def s3Folder : String := "chathib-prod"

/-- `f"{base_filename}_{table_type}_{timestamp}.csv"` (s3_pdf_processor.py:597). -/
def csvFileName (base ttype timestamp : String) : String :=
  base ++ "_" ++ ttype ++ "_" ++ timestamp ++ ".csv"

/-- `f"{self.s3_folder}/csv/{filename}"` (s3_pdf_processor.py:598). -/
def csvKey (base ttype timestamp : String) : String :=
  s3Folder ++ "/csv/" ++ csvFileName base ttype timestamp

/-- `os.path.join("datasets", filename)` (s3_pdf_processor.py:1281). -/
def localCsvPath (base ttype timestamp : String) : String :=
  "datasets/" ++ csvFileName base ttype timestamp

/-- One iteration of the S3 loop at s3_pdf_processor.py:594-621. -/
def csvStepS3 (base timestamp : String)
    (acc : List (String × String) × List S3Event) (kv : String × List Row) :
    List (String × String) × List S3Event :=
  if !kv.2.isEmpty then
    (acc.1 ++ [(kv.1, "s3://" ++ bucketName ++ "/" ++ csvKey base kv.1 timestamp)],
     acc.2 ++ [S3Event.csvPut (csvKey base kv.1 timestamp) kv.1])
  else acc

/-- One iteration of the local-fallback loop at s3_pdf_processor.py:1278-1286. -/
def csvStepLocal (base timestamp : String)
    (acc : List (String × String) × List S3Event) (kv : String × List Row) :
    List (String × String) × List S3Event :=
  if !kv.2.isEmpty then
    (acc.1 ++ [(kv.1, localCsvPath base kv.1 timestamp)],
     acc.2 ++ [S3Event.localCsvWrite (localCsvPath base kv.1 timestamp) kv.1])
  else acc

/-- `save_tables_to_s3_csv` (s3_pdf_processor.py:585-623): when an S3 client is
configured, write each non-empty table as a CSV object; otherwise fall back to
`save_tables_locally`. -/
def saveTablesToS3Csv (hasS3 : Bool) (tables : List (String × List Row))
    (base timestamp : String) (ev : List S3Event) :
    List (String × String) × List S3Event :=
  if hasS3 then tables.foldl (csvStepS3 base timestamp) ([], ev)
  else tables.foldl (csvStepLocal base timestamp) ([], ev)

theorem foldl_csvStepS3 (base timestamp : String)
    (l : List (String × List Row)) :
    ∀ (a : List (String × String)) (b : List S3Event),
      l.foldl (csvStepS3 base timestamp) (a, b) =
      (a ++ (l.filter (fun kv => !kv.2.isEmpty)).map
          (fun kv =>
            (kv.1, "s3://" ++ bucketName ++ "/" ++ csvKey base kv.1 timestamp)),
       b ++ (l.filter (fun kv => !kv.2.isEmpty)).map
          (fun kv => S3Event.csvPut (csvKey base kv.1 timestamp) kv.1)) := by
  induction l with
  | nil => intro a b; simp
  | cons kv l ih =>
    intro a b
    by_cases h : kv.2.isEmpty
    · have hstep : csvStepS3 base timestamp (a, b) kv = (a, b) := by
        simp [csvStepS3, h]
      rw [List.foldl_cons, hstep, ih a b]
      simp [List.filter_cons, h]
    · have hstep : csvStepS3 base timestamp (a, b) kv =
          (a ++ [(kv.1, "s3://" ++ bucketName ++ "/" ++ csvKey base kv.1 timestamp)],
           b ++ [S3Event.csvPut (csvKey base kv.1 timestamp) kv.1]) := by
        simp [csvStepS3, h]
      rw [List.foldl_cons, hstep, ih]
      simp [List.filter_cons, h, List.append_assoc]

theorem foldl_csvStepLocal (base timestamp : String)
    (l : List (String × List Row)) :
    ∀ (a : List (String × String)) (b : List S3Event),
      l.foldl (csvStepLocal base timestamp) (a, b) =
      (a ++ (l.filter (fun kv => !kv.2.isEmpty)).map
          (fun kv => (kv.1, localCsvPath base kv.1 timestamp)),
       b ++ (l.filter (fun kv => !kv.2.isEmpty)).map
          (fun kv =>
            S3Event.localCsvWrite (localCsvPath base kv.1 timestamp) kv.1)) := by
  induction l with
  | nil => intro a b; simp
  | cons kv l ih =>
    intro a b
    by_cases h : kv.2.isEmpty
    · have hstep : csvStepLocal base timestamp (a, b) kv = (a, b) := by
        simp [csvStepLocal, h]
      rw [List.foldl_cons, hstep, ih a b]
      simp [List.filter_cons, h]
    · have hstep : csvStepLocal base timestamp (a, b) kv =
          (a ++ [(kv.1, localCsvPath base kv.1 timestamp)],
           b ++ [S3Event.localCsvWrite (localCsvPath base kv.1 timestamp) kv.1]) := by
        simp [csvStepLocal, h]
      rw [List.foldl_cons, hstep, ih]
      simp [List.filter_cons, h, List.append_assoc]

/-- The save phase of `process_pdf_with_table_extraction`
(s3_pdf_processor.py:213-229): `if tables:` guard the CSV save, then
`if tables:` guard the delta generation, threading the event state. -/
def savePhase (hasS3 : Bool) (ops : DeltaOps (List Row) (List S3Event))
    (tables : List (String × List Row))
    (csvBase deltaFilename baseFilename timestamp : String)
    (ev : List S3Event) :
    (List (String × String) × List (String × String)) × List S3Event :=
  let csvr :=
    if !tables.isEmpty then saveTablesToS3Csv hasS3 tables csvBase timestamp ev
    else ([], ev)
  let deltar :=
    if !tables.isEmpty then
      generateAndSaveDeltaTables ops tables deltaFilename baseFilename
        timestamp csvr.2
    else ([], csvr.2)
  ((csvr.1, deltar.1), deltar.2)

/-- C10: in a run where at least one extracted table is non-empty but neither
primary table is present as non-empty, the save phase still writes one CSV per
non-empty table (the event trace is exactly the CSV writes, and is non-empty),
while the delta-file mapping is empty — the no-data policy suppresses only the
snapshot writes, never the CSV exports. -/
theorem claim10_csv_without_snapshots
    (hasS3 : Bool) (ops : DeltaOps (List Row) (List S3Event))
    (tables : List (String × List Row))
    (csvBase deltaFilename baseFilename timestamp : String)
    (hinv : hasNonEmpty ops tables "investimento_financeiro" = false)
    (hrf : hasNonEmpty ops tables "renda_fixa" = false)
    (hsome : ∃ kv ∈ tables, kv.2.isEmpty = false) :
    (savePhase hasS3 ops tables csvBase deltaFilename baseFilename timestamp
        []).1.2 = [] ∧
    (savePhase hasS3 ops tables csvBase deltaFilename baseFilename timestamp
        []).2 =
      (tables.filter (fun kv => !kv.2.isEmpty)).map
        (fun kv =>
          if hasS3 then S3Event.csvPut (csvKey csvBase kv.1 timestamp) kv.1
          else S3Event.localCsvWrite (localCsvPath csvBase kv.1 timestamp) kv.1) ∧
    (∀ kv ∈ tables, kv.2.isEmpty = false →
      kv.1 ∈ ((savePhase hasS3 ops tables csvBase deltaFilename baseFilename
          timestamp []).1.1).map Prod.fst) ∧
    (savePhase hasS3 ops tables csvBase deltaFilename baseFilename timestamp
        []).2 ≠ [] := by
  obtain ⟨kv0, hkv0, hkv0ne⟩ := hsome
  have htne : tables.isEmpty = false := by
    cases tables with
    | nil => cases hkv0
    | cons x xs => rfl
  have hgen : ∀ ev : List S3Event,
      generateAndSaveDeltaTables ops tables deltaFilename baseFilename
        timestamp ev = ([], ev) :=
    fun ev => generateAndSaveDeltaTables_noPrimary ops tables deltaFilename
      baseFilename timestamp ev hinv hrf
  have hcsv : saveTablesToS3Csv hasS3 tables csvBase timestamp [] =
      ((tables.filter (fun kv => !kv.2.isEmpty)).map
        (fun kv =>
          (kv.1, if hasS3 then
              "s3://" ++ bucketName ++ "/" ++ csvKey csvBase kv.1 timestamp
            else localCsvPath csvBase kv.1 timestamp)),
       (tables.filter (fun kv => !kv.2.isEmpty)).map
        (fun kv =>
          if hasS3 then S3Event.csvPut (csvKey csvBase kv.1 timestamp) kv.1
          else S3Event.localCsvWrite (localCsvPath csvBase kv.1 timestamp) kv.1)) := by
    cases hasS3 with
    | false =>
      rw [saveTablesToS3Csv, if_neg (by simp)]
      rw [foldl_csvStepLocal csvBase timestamp tables [] []]
      simp
    | true =>
      rw [saveTablesToS3Csv, if_pos rfl]
      rw [foldl_csvStepS3 csvBase timestamp tables [] []]
      simp
  have hrun : savePhase hasS3 ops tables csvBase deltaFilename baseFilename
      timestamp [] =
      (((saveTablesToS3Csv hasS3 tables csvBase timestamp []).1, []),
       (saveTablesToS3Csv hasS3 tables csvBase timestamp []).2) := by
    rw [savePhase]
    simp only [htne, Bool.not_false, if_true]
    rw [hgen]
  have hmemf : kv0 ∈ tables.filter (fun kv => !kv.2.isEmpty) :=
    List.mem_filter.mpr ⟨hkv0, by rw [hkv0ne]; rfl⟩
  refine ⟨?_, ?_, ?_, ?_⟩
  · rw [hrun]
  · rw [hrun, hcsv]
  · intro kv hkv hne
    rw [hrun]
    simp only [hcsv, List.map_map]
    exact List.mem_map.mpr
      ⟨kv, List.mem_filter.mpr ⟨hkv, by rw [hne]; rfl⟩, rfl⟩
  · rw [hrun, hcsv]
    intro hnil
    rw [List.map_eq_nil_iff] at hnil
    rw [hnil] at hmemf
    cases hmemf

def opsCsvW : DeltaOps (List Row) (List S3Event) where
  isEmptyDF := fun r => r.isEmpty
  createFinancial := fun _ _ => []
  createRendaFixa := fun _ _ => []
  createProductValue := fun _ _ => []
  createCashflow := fun _ _ => []
  saveOrAppend := fun _ tn _ s => ("s3://" ++ bucketName ++ "/" ++ tn, s)
  saveDelta := fun _ tn s => ("s3://" ++ bucketName ++ "/" ++ tn, s)

def tablesW : List (String × List Row) :=
  [("cronograma_pagamentos", [[("descricao", Val.vs "entrada".data)]])]

/-- Witness for C10: a run holding only a non-empty `cronograma_pagamentos`
table writes its CSV (one event) while producing no delta files. -/
theorem claim10_csv_without_snapshots_witness :
    (savePhase true opsCsvW tablesW "doc" "doc.pdf" "doc" "20250101000000"
        []).1.2 = [] ∧
    (savePhase true opsCsvW tablesW "doc" "doc.pdf" "doc" "20250101000000"
        []).2 ≠ [] := by
  have h := claim10_csv_without_snapshots true opsCsvW tablesW "doc" "doc.pdf"
    "doc" "20250101000000" rfl rfl
    ⟨("cronograma_pagamentos", [[("descricao", Val.vs "entrada".data)]]),
      by simp [tablesW], rfl⟩
  exact ⟨h.1, h.2.2.2⟩

/-!
## Delta table CREATE / APPEND and the transaction log

`save_or_append_delta_table_to_s3` (s3_pdf_processor.py:1038-1177),
`check_existing_delta_table_in_s3` (s3_pdf_processor.py:1179-1192),
`create_delta_metadata` (s3_pdf_processor.py:728-822, in particular the `add`
path at line 810), `create_delta_append_metadata` (s3_pdf_processor.py:824-886,
`add` path at line 875), `pandas_to_delta_type` (s3_pdf_processor.py:888-901),
and the manifest write of `generate_symlink_format_manifest`
(s3_pdf_processor.py:1304-1362) invoked through `setup_athena_compatibility`.

A DataFrame is modeled by its column list (name and pandas dtype), row count,
and an abstract content hash (standing for the md5 of its CSV serialization);
S3 keys are character lists; the S3 bucket is an assoc list where a fresh put
shadows earlier entries, so `lookupObj` always sees the latest write to a key.
The per-call uuid/timestamp material of the metadata builders is supplied by
the caller as the parameter `t`.
-/

structure DeltaDF where
  cols : List (String × String)
  nrows : Nat
  contentHash : Nat
deriving DecidableEq

/-- `pandas_to_delta_type` (s3_pdf_processor.py:888-901). -/
def pandasToDeltaType (dtype : String) : String :=
  if dtype == "int64" then "long"
  else if dtype == "int32" then "integer"
  else if dtype == "float64" then "double"
  else if dtype == "float32" then "float"
  else if dtype == "object" then "string"
  else if dtype == "bool" then "boolean"
  else if dtype == "datetime64[ns]" then "timestamp"
  else if dtype == "category" then "string"
  else "string"

/-- The five tracking columns added at s3_pdf_processor.py:1059-1073 and
1120-1134 before writing. -/
def withTracking (df : DeltaDF) (filename : String) : DeltaDF :=
  { df with cols := df.cols ++
      [("fonte_arquivo", "object"), ("data_insercao", "object"),
       ("Arquivo", "object"), ("modelo_llm_usado", "object"),
       ("tempo_processamento_llm_segundos", "int64")] }

/-- The schema fields of `create_delta_metadata`
(s3_pdf_processor.py:738-747). -/
def deltaSchema (df : DeltaDF) : List (String × String) :=
  df.cols.map (fun kv => (kv.1, pandasToDeltaType kv.2))

inductive S3Obj where
  | parquetObj (cols : List (String × String)) (nrows : Nat)
      (srcFile : String) (t : Nat)
  | createLogObj (schema : List (String × String)) (tableId : Nat)
      (addPath : List Char) (t : Nat)
  | appendLogObj (addPath : List Char) (t : Nat)
  | manifestObj (paths : List (List Char))
deriving DecidableEq

abbrev Store := List (List Char × S3Obj)

/-- `s3_client.put_object`: the newest object under a key shadows older ones. -/
def putObj (k : List Char) (v : S3Obj) (s : Store) : Store := (k, v) :: s

def lookupObj (k : List Char) (s : Store) : Option S3Obj :=
  (s.find? (fun kv => kv.1 == k)).map (fun kv => kv.2)

/-- `f"{self.s3_folder}/delta_datasets/{table_name}/"`
(s3_pdf_processor.py:1050 and 1313). -/
def deltaDirK (tn : List Char) : List Char :=
  s3Folder.data ++ "/delta_datasets/".data ++ tn ++ "/".data

/-- The `_delta_log/` listing prefix (s3_pdf_processor.py:1185). -/
def logDirK (tn : List Char) : List Char := deltaDirK tn ++ "_delta_log/".data

/-- `f"{version_number:020d}"` (s3_pdf_processor.py:1091 and 1152). -/
def pad20 (v : Nat) : List Char :=
  List.replicate (20 - (natToStr v).length) '0' ++ natToStr v

def logKeyK (tn : List Char) (v : Nat) : List Char :=
  logDirK tn ++ pad20 v ++ ".json".data

/-- `f"part-00000-{content_hash[:8]}-{file_id[-8:]}-c000.snappy.parquet"`
(s3_pdf_processor.py:810). -/
def createParquetName (df : DeltaDF) (t : Nat) : List Char :=
  "part-00000-".data ++ natToStr df.contentHash ++ "-".data ++ natToStr t ++
    "-c000.snappy.parquet".data

/-- Same with the hard-coded `part-00001-` stem (s3_pdf_processor.py:875). -/
def appendParquetName (df : DeltaDF) (t : Nat) : List Char :=
  "part-00001-".data ++ natToStr df.contentHash ++ "-".data ++ natToStr t ++
    "-c000.snappy.parquet".data

def dataKeyK (tn pq : List Char) : List Char := deltaDirK tn ++ pq

/-- `manifest_key = f"{s3_prefix}_symlink_format_manifest"`
(s3_pdf_processor.py:1342). -/
def manifestKeyK (tn : List Char) : List Char :=
  deltaDirK tn ++ "_symlink_format_manifest".data

/-- `check_existing_delta_table_in_s3` (s3_pdf_processor.py:1179-1192): a
non-empty listing under the table's `_delta_log/` prefix. -/
def checkExistingDeltaTable (store : Store) (tn : List Char) : Bool :=
  store.any (fun kv => leadsWith (logDirK tn) kv.1)

def endsWithK (suf k : List Char) : Bool := leadsWith suf.reverse k.reverse

def storeKeys (store : Store) : List (List Char) :=
  (store.map (fun kv => kv.1)).dedup

/-- The `.parquet` keys under the table prefix collected by
`generate_symlink_format_manifest` (s3_pdf_processor.py:1316-1328). -/
def parquetKeysIn (store : Store) (tn : List Char) : List (List Char) :=
  (storeKeys store).filter
    (fun k => leadsWith (deltaDirK tn) k && endsWithK ".parquet".data k)

/-- `setup_athena_compatibility`'s blob-store effect: the manifest write of
`generate_symlink_format_manifest` (s3_pdf_processor.py:1333-1350); with no
parquet files it writes nothing. -/
def setupAthena (store : Store) (tn : List Char) : Store :=
  if (parquetKeysIn store tn).isEmpty then store
  else putObj (manifestKeyK tn) (S3Obj.manifestObj (parquetKeysIn store tn))
    store

/-- `save_or_append_delta_table_to_s3` (s3_pdf_processor.py:1038-1177).  The
APPEND branch (lines 1054-1113) writes a `part-00001-` parquet file and the
hard-coded log entry `version_number = 1` (line 1090); the CREATE branch
(lines 1115-1173) writes a `part-00000-` parquet file and log entry 0 carrying
the full schema and table-id metadata.  Both end with the Athena manifest
update. -/
def saveOrAppendDeltaTable (df : DeltaDF) (tn : List Char) (filename : String)
    (t : Nat) (store : Store) : Store :=
  if checkExistingDeltaTable store tn then
    let dfc := withTracking df filename
    let pq := appendParquetName dfc t
    let s1 := putObj (dataKeyK tn pq)
      (S3Obj.parquetObj dfc.cols dfc.nrows filename t) store
    let s2 := putObj (logKeyK tn 1) (S3Obj.appendLogObj pq t) s1
    setupAthena s2 tn
  else
    let dfc := withTracking df filename
    let pq := createParquetName dfc t
    let s1 := putObj (dataKeyK tn pq)
      (S3Obj.parquetObj dfc.cols dfc.nrows filename t) store
    let s2 := putObj (logKeyK tn 0)
      (S3Obj.createLogObj (deltaSchema dfc) t pq t) s1
    setupAthena s2 tn

theorem leadsWith_append_same (d a b : List Char) :
    leadsWith (d ++ a) (d ++ b) = leadsWith a b := by
  induction d with
  | nil => rfl
  | cons c d ih => simp [leadsWith, ih]

theorem suffix_ne (d : List Char) {x y : List Char} (h : x ≠ y) :
    d ++ x ≠ d ++ y := by
  intro hc
  exact h (List.append_cancel_left hc)

theorem lookupObj_putObj_self (k : List Char) (v : S3Obj) (s : Store) :
    lookupObj k (putObj k v s) = some v := by
  rw [lookupObj, putObj, List.find?_cons_of_pos _ (by simp)]
  rfl

theorem lookupObj_putObj_ne {k k' : List Char} (v : S3Obj) (s : Store)
    (h : k' ≠ k) : lookupObj k (putObj k' v s) = lookupObj k s := by
  rw [lookupObj, putObj, List.find?_cons_of_neg _ (by simp [h])]
  rfl

theorem lookupObj_setupAthena {tn k : List Char} (s : Store)
    (h : manifestKeyK tn ≠ k) :
    lookupObj k (setupAthena s tn) = lookupObj k s := by
  rw [setupAthena]
  split
  · rfl
  · exact lookupObj_putObj_ne _ _ h

theorem lookupObj_none_of_checkFalse {store : Store} {tn : List Char}
    (hc : checkExistingDeltaTable store tn = false) :
    ∀ k, leadsWith (logDirK tn) k = true → lookupObj k store = none := by
  induction store with
  | nil => intro k _; rfl
  | cons kv s ih =>
    intro k hk
    rw [checkExistingDeltaTable, List.any_cons, Bool.or_eq_false_iff] at hc
    have hne : kv.1 ≠ k := by
      intro he
      rw [he, hk] at hc
      exact Bool.noConfusion hc.1
    rw [lookupObj, List.find?_cons_of_neg _ (by simp [hne])]
    exact ih hc.2 k hk

theorem logKeyK_assoc (tn : List Char) (v : Nat) :
    logKeyK tn v =
      deltaDirK tn ++ ("_delta_log/".data ++ (pad20 v ++ ".json".data)) := by
  simp [logKeyK, logDirK, List.append_assoc]

/-- The manifest key never collides with a key under the log prefix. -/
theorem manifestKeyK_ne_logPrefixed {tn k : List Char}
    (hk : leadsWith (logDirK tn) k = true) : manifestKeyK tn ≠ k := by
  intro he
  rw [← he, manifestKeyK, logDirK, leadsWith_append_same] at hk
  exact absurd hk (by decide)

set_option maxRecDepth 8000

/-- C2 counterexample: starting from an empty bucket, write the same one-column
table three times (at times 1, 2, 3).  The third write produces no log entry
with sequence number 2 — the APPEND branch hard-codes `version_number = 1`
(s3_pdf_processor.py:1090) — and instead overwrites log entry 1, whose content
after the third write differs from its content after the second, refuting both
"strictly increasing sequence numbers" and "all earlier log entries remain
byte-identical". -/
theorem claim2_counterexample :
    checkExistingDeltaTable
        (saveOrAppendDeltaTable ⟨[("ativo", "object")], 1, 7⟩
          "investimento".data "a.pdf" 1
          (saveOrAppendDeltaTable ⟨[("ativo", "object")], 1, 7⟩
            "investimento".data "a.pdf" 1 []))
        "investimento".data = true ∧
    lookupObj (logKeyK "investimento".data 2)
        (saveOrAppendDeltaTable ⟨[("ativo", "object")], 1, 7⟩
          "investimento".data "c.pdf" 3
          (saveOrAppendDeltaTable ⟨[("ativo", "object")], 1, 7⟩
            "investimento".data "b.pdf" 2
            (saveOrAppendDeltaTable ⟨[("ativo", "object")], 1, 7⟩
              "investimento".data "a.pdf" 1 []))) = none ∧
    lookupObj (logKeyK "investimento".data 1)
        (saveOrAppendDeltaTable ⟨[("ativo", "object")], 1, 7⟩
          "investimento".data "c.pdf" 3
          (saveOrAppendDeltaTable ⟨[("ativo", "object")], 1, 7⟩
            "investimento".data "b.pdf" 2
            (saveOrAppendDeltaTable ⟨[("ativo", "object")], 1, 7⟩
              "investimento".data "a.pdf" 1 []))) =
      some (S3Obj.appendLogObj
        (appendParquetName (withTracking ⟨[("ativo", "object")], 1, 7⟩ "c.pdf") 3)
        3) ∧
    lookupObj (logKeyK "investimento".data 1)
        (saveOrAppendDeltaTable ⟨[("ativo", "object")], 1, 7⟩
          "investimento".data "c.pdf" 3
          (saveOrAppendDeltaTable ⟨[("ativo", "object")], 1, 7⟩
            "investimento".data "b.pdf" 2
            (saveOrAppendDeltaTable ⟨[("ativo", "object")], 1, 7⟩
              "investimento".data "a.pdf" 1 []))) ≠
      lookupObj (logKeyK "investimento".data 1)
        (saveOrAppendDeltaTable ⟨[("ativo", "object")], 1, 7⟩
          "investimento".data "b.pdf" 2
          (saveOrAppendDeltaTable ⟨[("ativo", "object")], 1, 7⟩
            "investimento".data "a.pdf" 1 [])) := by
  refine ⟨by decide, by decide, by decide, by decide⟩

/-- C2 (amended): the first write to a previously-nonexistent table name
(existence decided by listing its log prefix) produces exactly one log entry,
with sequence number 0, carrying the full schema and table-id metadata
(CREATE), and leaves every other log key absent; every subsequent write
produces the log entry with the hard-coded sequence number 1 referencing only
the newly added data file (APPEND) — overwriting any previous entry 1 rather
than incrementing past it — while log entry 0 and all `part-00000-` data files
remain untouched. -/
theorem claim2_log_sequence_amended (df : DeltaDF) (tn : List Char)
    (filename : String) (t : Nat) (store : Store) :
    (checkExistingDeltaTable store tn = false →
      lookupObj (logKeyK tn 0) (saveOrAppendDeltaTable df tn filename t store)
        = some (S3Obj.createLogObj (deltaSchema (withTracking df filename)) t
            (createParquetName (withTracking df filename) t) t) ∧
      ∀ k, leadsWith (logDirK tn) k = true → k ≠ logKeyK tn 0 →
        lookupObj k (saveOrAppendDeltaTable df tn filename t store) = none) ∧
    (checkExistingDeltaTable store tn = true →
      lookupObj (logKeyK tn 1) (saveOrAppendDeltaTable df tn filename t store)
        = some (S3Obj.appendLogObj
            (appendParquetName (withTracking df filename) t) t) ∧
      lookupObj (logKeyK tn 0) (saveOrAppendDeltaTable df tn filename t store)
        = lookupObj (logKeyK tn 0) store ∧
      ∀ k, leadsWith (deltaDirK tn ++ "part-00000-".data) k = true →
        lookupObj k (saveOrAppendDeltaTable df tn filename t store)
          = lookupObj k store) := by
  constructor
  · intro hc
    have hrun : saveOrAppendDeltaTable df tn filename t store =
        setupAthena
          (putObj (logKeyK tn 0)
            (S3Obj.createLogObj (deltaSchema (withTracking df filename)) t
              (createParquetName (withTracking df filename) t) t)
            (putObj (dataKeyK tn (createParquetName (withTracking df filename) t))
              (S3Obj.parquetObj (withTracking df filename).cols
                (withTracking df filename).nrows filename t) store))
          tn := by
      rw [saveOrAppendDeltaTable, if_neg (by simp [hc])]
    have hdata_ne : ∀ k, leadsWith (logDirK tn) k = true →
        dataKeyK tn (createParquetName (withTracking df filename) t) ≠ k := by
      intro k hk he
      rw [← he, dataKeyK, logDirK, leadsWith_append_same] at hk
      have hfalse : leadsWith "_delta_log/".data
          (createParquetName (withTracking df filename) t) = false := rfl
      rw [hfalse] at hk
      cases hk
    constructor
    · have hlog0 : leadsWith (logDirK tn) (logKeyK tn 0) = true := by
        rw [logKeyK]
        rw [show logDirK tn ++ pad20 0 ++ ".json".data =
            logDirK tn ++ (pad20 0 ++ ".json".data) from by
          rw [List.append_assoc]]
        rw [show (logDirK tn : List Char) = logDirK tn ++ [] from by simp,
          List.append_assoc]
        simp only [List.nil_append]
        rw [leadsWith_append_same]
        rfl
      rw [hrun, lookupObj_setupAthena _ (manifestKeyK_ne_logPrefixed hlog0),
        lookupObj_putObj_self]
    · intro k hk hne0
      rw [hrun, lookupObj_setupAthena _ (manifestKeyK_ne_logPrefixed hk),
        lookupObj_putObj_ne _ _ (fun he => hne0 he.symm),
        lookupObj_putObj_ne _ _ (hdata_ne k hk)]
      exact lookupObj_none_of_checkFalse hc k hk
  · intro hc
    have hrun : saveOrAppendDeltaTable df tn filename t store =
        setupAthena
          (putObj (logKeyK tn 1)
            (S3Obj.appendLogObj (appendParquetName (withTracking df filename) t)
              t)
            (putObj (dataKeyK tn (appendParquetName (withTracking df filename) t))
              (S3Obj.parquetObj (withTracking df filename).cols
                (withTracking df filename).nrows filename t) store))
          tn := by
      rw [saveOrAppendDeltaTable, if_pos hc]
    have hlog1 : leadsWith (logDirK tn) (logKeyK tn 1) = true := by
      rw [logKeyK_assoc, logDirK, leadsWith_append_same]
      rfl
    constructor
    · rw [hrun, lookupObj_setupAthena _ (manifestKeyK_ne_logPrefixed hlog1),
        lookupObj_putObj_self]
    constructor
    · have hlog0 : leadsWith (logDirK tn) (logKeyK tn 0) = true := by
        rw [logKeyK_assoc, logDirK, leadsWith_append_same]
        rfl
      have h10 : logKeyK tn 1 ≠ logKeyK tn 0 := by
        rw [logKeyK_assoc, logKeyK_assoc]
        exact suffix_ne _ (by decide)
      have hdata_ne : dataKeyK tn (appendParquetName (withTracking df filename) t)
          ≠ logKeyK tn 0 := by
        intro he
        have hk : leadsWith (logDirK tn)
            (dataKeyK tn (appendParquetName (withTracking df filename) t))
            = true := he ▸ hlog0
        rw [dataKeyK, logDirK, leadsWith_append_same] at hk
        have hfalse : leadsWith "_delta_log/".data
            (appendParquetName (withTracking df filename) t) = false := rfl
        rw [hfalse] at hk
        cases hk
      rw [hrun, lookupObj_setupAthena _ (manifestKeyK_ne_logPrefixed hlog0),
        lookupObj_putObj_ne _ _ h10, lookupObj_putObj_ne _ _ hdata_ne]
    · intro k hk
      have hman : manifestKeyK tn ≠ k := by
        intro he
        rw [← he, manifestKeyK, leadsWith_append_same] at hk
        exact absurd hk (by decide)
      have hlog1k : logKeyK tn 1 ≠ k := by
        intro he
        rw [← he, logKeyK_assoc, leadsWith_append_same] at hk
        have hfalse : leadsWith "part-00000-".data
            ("_delta_log/".data ++ (pad20 1 ++ ".json".data)) = false := rfl
        rw [hfalse] at hk
        cases hk
      have hdatak : dataKeyK tn (appendParquetName (withTracking df filename) t)
          ≠ k := by
        intro he
        rw [← he, dataKeyK, leadsWith_append_same] at hk
        have hfalse : leadsWith "part-00000-".data
            (appendParquetName (withTracking df filename) t) = false := rfl
        rw [hfalse] at hk
        cases hk
      rw [hrun, lookupObj_setupAthena _ hman, lookupObj_putObj_ne _ _ hlog1k,
        lookupObj_putObj_ne _ _ hdatak]

/-- Witness for the amended C2: with the concrete one-column table, the first
write from the empty bucket produces exactly log entry 0 (CREATE), and the
second write produces log entry 1 (APPEND) while leaving entry 0 in place. -/
theorem claim2_log_sequence_amended_witness :
    checkExistingDeltaTable ([] : Store) "investimento".data = false ∧
    lookupObj (logKeyK "investimento".data 0)
        (saveOrAppendDeltaTable ⟨[("ativo", "object")], 1, 7⟩
          "investimento".data "a.pdf" 1 [])
      = some (S3Obj.createLogObj
          (deltaSchema (withTracking ⟨[("ativo", "object")], 1, 7⟩ "a.pdf")) 1
          (createParquetName (withTracking ⟨[("ativo", "object")], 1, 7⟩ "a.pdf")
            1) 1) ∧
    checkExistingDeltaTable
        (saveOrAppendDeltaTable ⟨[("ativo", "object")], 1, 7⟩
          "investimento".data "a.pdf" 1 []) "investimento".data = true ∧
    lookupObj (logKeyK "investimento".data 1)
        (saveOrAppendDeltaTable ⟨[("ativo", "object")], 1, 7⟩
          "investimento".data "b.pdf" 2
          (saveOrAppendDeltaTable ⟨[("ativo", "object")], 1, 7⟩
            "investimento".data "a.pdf" 1 []))
      = some (S3Obj.appendLogObj
          (appendParquetName (withTracking ⟨[("ativo", "object")], 1, 7⟩ "b.pdf")
            2) 2) ∧
    lookupObj (logKeyK "investimento".data 0)
        (saveOrAppendDeltaTable ⟨[("ativo", "object")], 1, 7⟩
          "investimento".data "b.pdf" 2
          (saveOrAppendDeltaTable ⟨[("ativo", "object")], 1, 7⟩
            "investimento".data "a.pdf" 1 []))
      = lookupObj (logKeyK "investimento".data 0)
          (saveOrAppendDeltaTable ⟨[("ativo", "object")], 1, 7⟩
            "investimento".data "a.pdf" 1 []) := by
  have h1 := (claim2_log_sequence_amended ⟨[("ativo", "object")], 1, 7⟩
    "investimento".data "a.pdf" 1 []).1 (by decide)
  have h2 := (claim2_log_sequence_amended ⟨[("ativo", "object")], 1, 7⟩
    "investimento".data "b.pdf" 2
    (saveOrAppendDeltaTable ⟨[("ativo", "object")], 1, 7⟩
      "investimento".data "a.pdf" 1 [])).2 (by decide)
  exact ⟨by decide, h1.1, by decide, h2.1, h2.2.1⟩

end ChatHibri
